import Mathlib

/-!
# Chart-series transformations of the marketing-analytics dashboard

Shallow embedding of the client-side "monthly metrics to chart series"
transformations of the repository:

* `transformedChartData` from `ChannelAnalysis.tsx` (channel trend chart),
* the audience variant of the same `useMemo` transformation (audience trend
  chart of the analysis view),
* `transformData` from `AudienceTrendChart.tsx`.

Modelling conventions:

* JavaScript numbers are modelled as rationals (`ℚ`); the claims under
  consideration are algebraic and do not concern IEEE rounding.
* A possibly-absent object field is an `Option`; reading an absent field
  yields the JavaScript value `undefined`.
* The distinguished JavaScript values that can end up in a chart-row slot
  (`null`, `undefined`, `NaN`, numbers) form the type `JsVal`.
* A JavaScript object used as a string-keyed map is an insertion-ordered
  association list (property order of non-index keys in JavaScript is
  insertion order; assigning to an existing key keeps its position).
* `new Date().getFullYear()` is an ambient read; the embedding passes the
  current year through explicitly as the `year` argument.
* `Array.prototype.sort` with the comparator
  `(a, b) => new Date(a.month).getTime() - new Date(b.month).getTime()` is
  modelled by `List.insertionSort` on the date-key strings: the produced
  keys are pairwise distinct `YYYY-MM-01` strings sharing one year, on
  which the parsed-time order coincides with the lexicographic string
  order, and a stable sort of a list with pairwise-distinct keys under a
  total order is the unique sorted permutation, which insertion sort also
  returns.
-/

/-- A JavaScript value that can be stored in a chart-row slot. -/
inductive JsVal where
  | null
  | undef
  | nan
  | num (q : ℚ)
deriving DecidableEq

/-- One entity's reported values for one calendar month, as delivered by the
backend.  Every field may be absent at runtime (the data flows through
`any`-typed values), hence all fields are `Option`s.  The `month` number is
modelled as a natural number; the claims restrict attention to months
`1..12`. -/
structure MonthlyMetric where
  month : Option Nat := none
  roi : Option ℚ := none
  conversion_rate : Option ℚ := none
  acquisition_cost : Option ℚ := none
  ctr : Option ℚ := none
  clicks : Option ℚ := none
  campaign_count : Option ℚ := none
  total_spend : Option ℚ := none
deriving DecidableEq

/-- One channel of `ChannelMonthlyMetricsResponse`: `channel_id` plus its
`monthly_metrics` array.  `channelData.monthly_metrics || []` treats an
absent array as empty, so the list field itself is total. -/
structure Channel where
  channel_id : Option String := none
  monthly_metrics : List MonthlyMetric := []
deriving DecidableEq

/-- One audience of the audience monthly-metrics response used by the
audience-analysis trend chart. -/
structure Audience where
  audience_id : Option String := none
  monthly_metrics : List MonthlyMetric := []
deriving DecidableEq

/-- One data point of `AudienceTrendChart.tsx`.  That component reads the
metric field dynamically (`metricPoint[selectedMetric]`), so the numeric
properties are modelled as a property map alongside the `month` property. -/
structure TrendPoint where
  month : Option Nat := none
  fields : List (String × ℚ) := []
deriving DecidableEq

/-- One audience of `AudienceTrendChart.tsx`; `!audience.monthly_metrics`
distinguishes an absent array from an empty one, hence the `Option`. -/
structure TrendAudience where
  audience_id : Option String := none
  monthly_metrics : Option (List TrendPoint) := none
deriving DecidableEq

/-- One produced chart row: the `month` date-key property plus one slot per
entity id.  (In the JavaScript object the date key and the slots share one
namespace; no entity id used by the dashboard is the literal string
`month`, so the embedding keeps them apart.) -/
structure ChartRow where
  month : String
  slots : List (String × JsVal)
deriving DecidableEq

/-- Reading an object field: an absent field reads as `undefined`. -/
def toVal : Option ℚ → JsVal
  | some q => JsVal.num q
  | none => JsVal.undef

/-- JavaScript truthiness of a possibly-absent number (`undefined` and `0`
are falsy). -/
def jsTruthy : Option ℚ → Bool
  | some q => decide (q ≠ 0)
  | none => false

/-- JavaScript comparison `x > 0` on a possibly-absent number
(`undefined > 0` is `false`). -/
def jsPos : Option ℚ → Bool
  | some q => decide (0 < q)
  | none => false

/-- JavaScript `x || d` on a possibly-absent number: `undefined` and `0`
fall back to the default. -/
def jsOr (o : Option ℚ) (d : ℚ) : ℚ :=
  match o with
  | some q => if q = 0 then d else q
  | none => d

/-- The property key an entity id produces: `obj[undefined]` coerces the
key to the string `undefined`. -/
def idKey : Option String → String
  | some s => s
  | none => r"undefined"

/-- `String.prototype.padStart(2, '0')`. -/
def padStart2 (s : String) : String :=
  if s.length ≥ 2 then s else if s.length = 1 then (r"0") ++ s else r"00"

/-- The month-dependent suffix of a synthesized date key:
`-MM-01` with the zero-padded month. -/
def sufKey (m : Nat) : String :=
  (r"-") ++ padStart2 (toString m) ++ (r"-01")

/-- The synthesized date key of the grouped transformations:
`` `${year}-${monthNum.toString().padStart(2, '0')}-01` ``. -/
def mkDateKey (year : Nat) (m : Nat) : String :=
  toString year ++ sufKey m

/-- Association-list lookup by string key (first occurrence). -/
def alookup (k : String) : List (String × β) → Option β
  | [] => none
  | (k1, v) :: rest => if k1 = k then some v else alookup k rest

/-- Assigning a property of a JavaScript object: overwrite in place if the
key exists, else append. -/
def setSlot (k : String) (v : JsVal) : List (String × JsVal) → List (String × JsVal)
  | [] => [(k, v)]
  | (k1, w) :: rest => if k1 = k then (k1, v) :: rest else (k1, w) :: setSlot k v rest

/-- Row initialization: every entity id is given a `null` slot
(`acc[id] = null` over all ids, in entity order). -/
def initSlots (ids : List String) : List (String × JsVal) :=
  ids.foldl (fun acc id => setSlot id JsVal.null acc) []

/-- In-place update of the row stored under `key` in the group map. -/
def updateRow (key : String) (f : ChartRow → ChartRow) :
    List (String × ChartRow) → List (String × ChartRow)
  | [] => []
  | (k, row) :: rest =>
    if k = key then (k, f row) :: rest else (k, row) :: updateRow key f rest

/-- The guard of the `cpa` case:
`metric.clicks && metric.clicks > 0 && metric.conversion_rate && metric.conversion_rate > 0`. -/
def cpaGuard (m : MonthlyMetric) : Bool :=
  jsTruthy m.clicks && jsPos m.clicks && jsTruthy m.conversion_rate && jsPos m.conversion_rate

/-- The `cpa` arithmetic on the guard's success branch:
`(acquisition_cost * (campaign_count || 1)) / (clicks * conversion_rate)`.
The guard guarantees `clicks` and `conversion_rate` are present and
positive, so the denominator is nonzero; if `acquisition_cost` is absent
the JavaScript arithmetic yields `NaN` (the catch-all branch is unreachable
for present clicks and conversion rate under the guard). -/
def cpaValue (m : MonthlyMetric) : JsVal :=
  match m.acquisition_cost, m.clicks, m.conversion_rate with
  | some a, some c, some r => JsVal.num (a * jsOr m.campaign_count 1 / (c * r))
  | _, _, _ => JsVal.nan

/-- The `switch (channelTrendMetric)` of `ChannelAnalysis.tsx`: cases
`roi`, `conversion`, `cpa`, `spend`, all other strings fall to the
`default` branch which reads `metric.roi`. -/
def resolveChannelMetric (sel : String) (m : MonthlyMetric) : JsVal :=
  if sel = "roi" then toVal m.roi
  else if sel = "conversion" then toVal m.conversion_rate
  else if sel = "cpa" then (if cpaGuard m then cpaValue m else toVal m.acquisition_cost)
  else if sel = "spend" then toVal m.total_spend
  else toVal m.roi

/-- The `switch (audienceTrendMetric)` of the audience-analysis trend
transformation: cases `roi`, `conversion`, `acquisition`, `ctr`, with the
`default` branch reading `metric.roi`. -/
def resolveAudienceMetric (sel : String) (m : MonthlyMetric) : JsVal :=
  if sel = "roi" then toVal m.roi
  else if sel = "conversion" then toVal m.conversion_rate
  else if sel = "acquisition" then toVal m.acquisition_cost
  else if sel = "ctr" then toVal m.ctr
  else toVal m.roi

/-- Lexicographic comparison of strings by character code (the ordering a
JavaScript string comparison uses). -/
def keyLt (s1 s2 : String) : Prop :=
  List.Lex (fun c1 c2 : Char => c1 < c2) s1.data s2.data

/-- Non-strict version of `keyLt`. -/
def keyLe (s1 s2 : String) : Prop := ¬ keyLt s2 s1

instance : DecidableRel keyLt :=
  fun s1 s2 => List.Lex.decidableRel _ s1.data s2.data

instance : DecidableRel keyLe :=
  fun s1 s2 => inferInstanceAs (Decidable (¬ keyLt s2 s1))

/-- Row comparison used by the final sort of the grouped transformations:
the comparator compares `new Date(row.month).getTime()`; on the
pairwise-distinct `YYYY-MM-01` keys (one shared year, months `1..12`)
produced by the grouping, that order coincides with the lexicographic
string order on the keys. -/
def rowLe (r1 r2 : ChartRow) : Prop := keyLe r1.month r2.month

/-- Strict row comparison, used to state strict ascent of the output. -/
def rowLt (r1 r2 : ChartRow) : Prop := keyLt r1.month r2.month

instance : DecidableRel rowLe :=
  fun r1 r2 => inferInstanceAs (Decidable (keyLe r1.month r2.month))

instance : DecidableRel rowLt :=
  fun r1 r2 => inferInstanceAs (Decidable (keyLt r1.month r2.month))

/-- Processing one monthly record of the entity keyed `cid`: build the date
key (this dereferences `metric.month`, so a record without a month makes
the whole transformation throw, modelled as `none`), create the row with
all-`null` slots if the key is new, then assign the resolved value to the
entity's slot. -/
def processMetric (allIds : List String) (resolve : MonthlyMetric → JsVal) (year : Nat)
    (cid : String) (g : List (String × ChartRow)) (rec : MonthlyMetric) :
    Option (List (String × ChartRow)) :=
  match rec.month with
  | none => none
  | some m =>
    some (updateRow (mkDateKey year m)
      (fun row => ⟨row.month, setSlot cid (resolve rec) row.slots⟩)
      (if (alookup (mkDateKey year m) g).isSome then g
       else g ++ [(mkDateKey year m, ⟨mkDateKey year m, initSlots allIds⟩)]))

/-- The entity property keys, in entity order
(`monthlyMetrics.channels.map(c => c.channel_id)` of the row initializer). -/
def allIdsOf (entities : List (Option String × List MonthlyMetric)) : List String :=
  entities.map fun e => idKey e.1

/-- The grouped `useMemo` transformation shared by the channel-analysis and
audience-analysis trend charts: group every entity's monthly records by the
synthesized date key, then return the rows sorted by date. -/
def buildSeries (resolve : MonthlyMetric → JsVal)
    (entities : List (Option String × List MonthlyMetric)) (year : Nat) :
    Option (List ChartRow) :=
  if entities.isEmpty then some [] else
  (entities.foldlM
      (fun g (e : Option String × List MonthlyMetric) =>
        e.2.foldlM (processMetric (allIdsOf entities) resolve year (idKey e.1)) g) []).map
    fun g => List.insertionSort rowLe (g.map fun p => p.2)

/-- The channel entities of `transformedChartData`, as `buildSeries`
consumes them. -/
def entsOfChannels (channels : List Channel) : List (Option String × List MonthlyMetric) :=
  channels.map fun c => (c.channel_id, c.monthly_metrics)

/-- The audience entities of the audience-analysis transformation. -/
def entsOfAudiences (audiences : List Audience) : List (Option String × List MonthlyMetric) :=
  audiences.map fun a => (a.audience_id, a.monthly_metrics)

/-- `transformedChartData` of `ChannelAnalysis.tsx` (with the ambient
current year passed explicitly). -/
def transformedChartData (channels : List Channel) (sel : String) (year : Nat) :
    Option (List ChartRow) :=
  buildSeries (resolveChannelMetric sel) (entsOfChannels channels) year

/-- The audience-analysis `transformedChartData` (same grouping skeleton,
audience metric switch). -/
def transformedChartDataAudiences (audiences : List Audience) (sel : String) (year : Nat) :
    Option (List ChartRow) :=
  buildSeries (resolveAudienceMetric sel) (entsOfAudiences audiences) year

/-- The month key of `AudienceTrendChart.tsx`:
`` `2024-${String(point.month).padStart(2, '0')}` `` (hardcoded year,
no day component). -/
def trendKey (m : Nat) : String := (r"2024-") ++ padStart2 (toString m)

/-- `Set.prototype.add` iteration order: first-insertion order without
duplicates. -/
def pushKey {α : Type} [DecidableEq α] (acc : List α) (s : α) : List α :=
  if s ∈ acc then acc else acc ++ [s]

/-- One point of the first pass of `transformData`: add the month key of a
point whose `month` is truthy (an absent or zero month is skipped). -/
def collectPointStep (acc : List String) (p : TrendPoint) : List String :=
  match p.month with
  | some m => if m = 0 then acc else pushKey acc (trendKey m)
  | none => acc

/-- One audience of the first pass of `transformData`. -/
def collectStep (acc : List String) (a : TrendAudience) : List String :=
  match a.monthly_metrics with
  | none => acc
  | some pts => pts.foldl collectPointStep acc

/-- First pass of `transformData`: collect the distinct month keys of all
points whose `month` is truthy. -/
def collectMonthKeys (auds : List TrendAudience) : List String :=
  auds.foldl collectStep []

/-- Dynamic read `metricPoint[selectedMetric]`; `some` corresponds to the
`typeof metricPoint[selectedMetric] === 'number'` test succeeding. -/
def pointField (sel : String) (p : TrendPoint) : Option ℚ := alookup sel p.fields

/-- `monthStr.split('-')` on the underlying character list. -/
def splitDash : List Char → List (List Char)
  | [] => [[]]
  | c :: rest =>
    let r := splitDash rest
    if c = '-' then [] :: r
    else
      match r with
      | [] => [[c]]
      | h :: t => (c :: h) :: t

/-- Decimal digit-string evaluation. -/
def digitsToNat (cs : List Char) : Nat :=
  cs.foldl (fun n c => n * 10 + (c.toNat - 48)) 0

/-- `parseInt(monthStr.split('-')[1])` on the keys produced by
`collectMonthKeys`, whose second dash-separated component is always the
zero-padded decimal month. -/
def monthOfKey (s : String) : Nat :=
  digitsToNat ((splitDash s.data).getD 1 [])

/-- The value the second pass of `transformData` writes for one audience
and month: the record's selected metric when a record for the month exists
and carries a numeric value, the number `0` otherwise. -/
def trendSlotVal (sel : String) (monthNum : Nat) (pts : List TrendPoint) : JsVal :=
  match pts.find? (fun p => p.month == some monthNum) with
  | some p =>
    match pointField sel p with
    | some q => JsVal.num q
    | none => JsVal.num 0
  | none => JsVal.num 0

/-- One audience of the second pass of `transformData`: an audience that
has an id and a metrics array gets a slot holding `trendSlotVal`; an
audience lacking either is skipped. -/
def trendSlotStep (sel : String) (monthNum : Nat) (slots : List (String × JsVal))
    (a : TrendAudience) : List (String × JsVal) :=
  match a.audience_id, a.monthly_metrics with
  | some aid, some pts => setSlot aid (trendSlotVal sel monthNum pts) slots
  | _, _ => slots

/-- Second pass of `transformData`, for one month. -/
def trendSlots (auds : List TrendAudience) (sel : String) (monthNum : Nat) :
    List (String × JsVal) :=
  auds.foldl (trendSlotStep sel monthNum) []

/-- `transformData` of `AudienceTrendChart.tsx`: sort the distinct month
keys (the JavaScript default sort comparator is the lexicographic string
order), then build one data point per key. -/
def transformData (auds : List TrendAudience) (sel : String) : List ChartRow :=
  if auds.isEmpty then [] else
  let sorted := List.insertionSort keyLe (collectMonthKeys auds)
  if sorted.isEmpty then [] else
  sorted.map fun monthStr => ⟨monthStr, trendSlots auds sel (monthOfKey monthStr)⟩

/-! ## Specification-side vocabulary

The following definitions do not model further source code; they name the
data needed to characterize the output of `buildSeries` (proved in
`buildSeries_spec` below) and to state the claims. -/

/-- First-occurrence deduplication, the key order a JavaScript object's
non-index keys (and a `Set`) iterate in. -/
def firstDedup {α : Type} [DecidableEq α] (l : List α) : List α := l.foldl pushKey []

/-- Month order induced by the key suffixes (year-independent). -/
def monthLe (m1 m2 : Nat) : Prop := keyLe (sufKey m1) (sufKey m2)

instance : DecidableRel monthLe :=
  fun m1 m2 => inferInstanceAs (Decidable (keyLe (sufKey m1) (sufKey m2)))

/-- One grouping step of `buildSeries`: the entity's property key paired
with one of its monthly records. -/
def stepFn (allIds : List String) (resolve : MonthlyMetric → JsVal) (year : Nat)
    (g : List (String × ChartRow)) (s : String × MonthlyMetric) :
    Option (List (String × ChartRow)) :=
  processMetric allIds resolve year s.1 g s.2

/-- The processing steps of `buildSeries`, flattened in processing order. -/
def stepsOf (entities : List (Option String × List MonthlyMetric)) :
    List (String × MonthlyMetric) :=
  (entities.map fun e => e.2.map fun rec => (idKey e.1, rec)).flatten

/-- The month number a step groups under (its record's `month`; only used
on steps whose month is present). -/
def monthOf (s : String × MonthlyMetric) : Nat := s.2.month.getD 0

/-- The last record written to the slot of entity key `id` in the row of
month `m`, over a prefix of the processing steps. -/
def lastWriteSteps (done : List (String × MonthlyMetric)) (id : String) (m : Nat) :
    Option MonthlyMetric :=
  ((done.filter fun s => decide (s.1 = id) && decide (s.2.month = some m)).getLast?).map
    fun s => s.2

/-- The slot list of the row of month `m` after the steps `done`: one slot
per (deduplicated) entity key, holding the resolved value of the last
record written there, or `null` if none was. -/
def slotsAfter (resolve : MonthlyMetric → JsVal) (allIds : List String)
    (done : List (String × MonthlyMetric)) (m : Nat) : List (String × JsVal) :=
  (firstDedup allIds).map fun id =>
    (id,
      match lastWriteSteps done id m with
      | some rec => resolve rec
      | none => JsVal.null)

/-- The group map after the steps `done`: one entry per distinct month, in
first-occurrence order. -/
def gspec (resolve : MonthlyMetric → JsVal) (allIds : List String) (year : Nat)
    (done : List (String × MonthlyMetric)) : List (String × ChartRow) :=
  (firstDedup (done.map monthOf)).map fun m =>
    (mkDateKey year m, ⟨mkDateKey year m, slotsAfter resolve allIds done m⟩)

/-- The characterized output of `buildSeries` (proved equal to it in
`buildSeries_spec`): one row per distinct input month, sorted by the
month's key order, with the slots of `slotsAfter` over all steps. -/
def specRows (resolve : MonthlyMetric → JsVal)
    (entities : List (Option String × List MonthlyMetric)) (year : Nat) : List ChartRow :=
  (List.insertionSort monthLe (firstDedup ((stepsOf entities).map monthOf))).map fun m =>
    ⟨mkDateKey year m, slotsAfter resolve (allIdsOf entities) (stepsOf entities) m⟩

/-! ## Order lemmas for the lexicographic key comparison -/

theorem keyLt_asymm {a b : String} (h : keyLt a b) : ¬ keyLt b a :=
  asymm (r := List.Lex fun c1 c2 : Char => c1 < c2) h

theorem keyLt_trans {a b c : String} (h1 : keyLt a b) (h2 : keyLt b c) : keyLt a c :=
  trans_of (List.Lex fun c1 c2 : Char => c1 < c2) h1 h2

theorem string_eq_of_data_eq {a b : String} (h : a.data = b.data) : a = b := by
  cases a
  cases b
  exact congrArg String.mk h

theorem keyLt_trichotomy (a b : String) : keyLt a b ∨ a = b ∨ keyLt b a := by
  rcases trichotomous_of (List.Lex fun c1 c2 : Char => c1 < c2) a.data b.data with h | h | h
  · exact Or.inl h
  · exact Or.inr (Or.inl (string_eq_of_data_eq h))
  · exact Or.inr (Or.inr h)

theorem keyLe_total (a b : String) : keyLe a b ∨ keyLe b a := by
  unfold keyLe
  by_cases h : keyLt b a
  · exact Or.inr (keyLt_asymm h)
  · exact Or.inl h

theorem keyLe_trans {a b c : String} (h1 : keyLe a b) (h2 : keyLe b c) : keyLe a c := by
  unfold keyLe at h1 h2 ⊢
  intro h
  rcases keyLt_trichotomy a b with hab | rfl | hab
  · exact h2 (keyLt_trans h hab)
  · exact h2 h
  · exact h1 hab

theorem keyLt_of_keyLe_of_ne {a b : String} (h : keyLe a b) (hne : a ≠ b) : keyLt a b := by
  rcases keyLt_trichotomy a b with hab | rfl | hab
  · exact hab
  · exact absurd rfl hne
  · exact absurd hab h

instance : IsTotal String keyLe := ⟨keyLe_total⟩

instance : IsTrans String keyLe := ⟨fun _ _ _ => keyLe_trans⟩

instance : IsTotal ChartRow rowLe := ⟨fun r1 r2 => keyLe_total r1.month r2.month⟩

instance : IsTrans ChartRow rowLe := ⟨fun _ _ _ => keyLe_trans⟩

theorem lex_append_left_iff (x a b : List Char) :
    List.Lex (fun c1 c2 : Char => c1 < c2) (x ++ a) (x ++ b) ↔
      List.Lex (fun c1 c2 : Char => c1 < c2) a b := by
  induction x with
  | nil => exact Iff.rfl
  | cons c x ih =>
    constructor
    · intro h
      exact ih.mp (List.Lex.cons_iff.mp h)
    · intro h
      exact List.Lex.cons (ih.mpr h)

theorem keyLt_append_left_iff (x a b : String) : keyLt (x ++ a) (x ++ b) ↔ keyLt a b := by
  unfold keyLt
  rw [String.data_append, String.data_append]
  exact lex_append_left_iff x.data a.data b.data

theorem keyLe_append_left_iff (x a b : String) : keyLe (x ++ a) (x ++ b) ↔ keyLe a b :=
  not_congr (keyLt_append_left_iff x b a)

instance : IsTotal Nat monthLe := ⟨fun m1 m2 => keyLe_total (sufKey m1) (sufKey m2)⟩

instance : IsTrans Nat monthLe := ⟨fun _ _ _ => keyLe_trans⟩

theorem rowLe_mkDateKey_iff (year m1 m2 : Nat) (s1 s2 : List (String × JsVal)) :
    rowLe ⟨mkDateKey year m1, s1⟩ ⟨mkDateKey year m2, s2⟩ ↔ monthLe m1 m2 := by
  unfold rowLe mkDateKey
  exact keyLe_append_left_iff (toString year) (sufKey m1) (sufKey m2)

theorem append_left_cancel {x a b : String} (h : x ++ a = x ++ b) : a = b := by
  apply string_eq_of_data_eq
  have hd : x.data ++ a.data = x.data ++ b.data := by
    rw [← String.data_append, ← String.data_append, h]
  exact List.append_cancel_left hd

theorem sufKey_inj_aux :
    ∀ a ∈ List.range 13, ∀ b ∈ List.range 13, sufKey a = sufKey b → a = b := by decide

theorem mkDateKey_inj {year a b : Nat} (ha : a < 13) (hb : b < 13)
    (h : mkDateKey year a = mkDateKey year b) : a = b := by
  have hs : sufKey a = sufKey b := append_left_cancel h
  exact sufKey_inj_aux a (List.mem_range.mpr ha) b (List.mem_range.mpr hb) hs

/-! ## `pushKey` and `firstDedup` -/

theorem mem_pushKey {α : Type} [DecidableEq α] {acc : List α} {x y : α} :
    y ∈ pushKey acc x ↔ y ∈ acc ∨ y = x := by
  unfold pushKey
  split
  · constructor
    · exact fun h => Or.inl h
    · rintro (h | rfl)
      · exact h
      · assumption
  · simp

theorem nodup_pushKey {α : Type} [DecidableEq α] {acc : List α} {x : α} (h : acc.Nodup) :
    (pushKey acc x).Nodup := by
  unfold pushKey
  split
  · exact h
  · rename_i hx
    rw [List.nodup_append]
    refine ⟨h, List.nodup_singleton x, ?_⟩
    intro a ha hb
    rw [List.mem_singleton] at hb
    subst hb
    exact hx ha

theorem mem_foldl_pushKey {α : Type} [DecidableEq α] (l : List α) (acc : List α) (y : α) :
    y ∈ l.foldl pushKey acc ↔ y ∈ acc ∨ y ∈ l := by
  induction l generalizing acc with
  | nil => simp
  | cons x l ih =>
    rw [List.foldl_cons, ih, mem_pushKey]
    simp only [List.mem_cons]
    tauto

theorem nodup_foldl_pushKey {α : Type} [DecidableEq α] (l : List α) (acc : List α) (h : acc.Nodup) :
    (l.foldl pushKey acc).Nodup := by
  induction l generalizing acc with
  | nil => exact h
  | cons x l ih => exact ih _ (nodup_pushKey h)

theorem mem_firstDedup {α : Type} [DecidableEq α] {l : List α} {y : α} : y ∈ firstDedup l ↔ y ∈ l := by
  unfold firstDedup
  rw [mem_foldl_pushKey]
  simp

theorem nodup_firstDedup {α : Type} [DecidableEq α] (l : List α) : (firstDedup l).Nodup :=
  nodup_foldl_pushKey l [] List.nodup_nil

theorem firstDedup_append_single {α : Type} [DecidableEq α] (l : List α) (x : α) :
    firstDedup (l ++ [x]) = pushKey (firstDedup l) x := by
  unfold firstDedup
  rw [List.foldl_append]
  rfl

/-! ## Association-list lemmas -/

theorem alookup_map_keys {β : Type} {key : Nat → String} {F : Nat → β} {ms : List Nat}
    {m0 : Nat} (hinj : ∀ m ∈ ms, key m = key m0 → m = m0) :
    alookup (key m0) (ms.map fun m => (key m, F m)) =
      if m0 ∈ ms then some (F m0) else none := by
  induction ms with
  | nil => simp [alookup]
  | cons m rest ih =>
    simp only [List.map_cons, alookup]
    by_cases hk : key m = key m0
    · have hm : m = m0 := hinj m (List.mem_cons_self m rest) hk
      subst hm
      simp
    · have hm : m ≠ m0 := fun h => hk (by rw [h])
      rw [if_neg hk, ih fun x hx => hinj x (List.mem_cons_of_mem m hx)]
      by_cases hmem : m0 ∈ rest
      · rw [if_pos hmem, if_pos (List.mem_cons_of_mem m hmem)]
      · rw [if_neg hmem, if_neg fun hc => by
          rcases List.mem_cons.mp hc with h1 | h1
          · exact hm h1.symm
          · exact hmem h1]

theorem alookup_setSlot (id k : String) (v : JsVal) (s : List (String × JsVal)) :
    alookup id (setSlot k v s) = if k = id then some v else alookup id s := by
  induction s with
  | nil => simp [setSlot, alookup]
  | cons p rest ih =>
    obtain ⟨k1, w⟩ := p
    simp only [setSlot]
    by_cases h1 : k1 = k
    · subst h1
      rw [if_pos rfl]
      simp only [alookup]
      by_cases h2 : k1 = id
      · rw [if_pos h2, if_pos h2]
      · simp [alookup, h2]
    · rw [if_neg h1]
      simp only [alookup]
      by_cases h2 : k1 = id
      · subst h2
        rw [if_pos rfl, if_pos rfl, if_neg fun h => h1 h.symm]
      · rw [if_neg h2, if_neg h2, ih]

theorem setSlot_map_of_mem {ids : List String} {H : String → JsVal} {cid : String} {v : JsVal}
    (hmem : cid ∈ ids) (hnd : ids.Nodup) :
    setSlot cid v (ids.map fun id => (id, H id)) =
      ids.map fun id => (id, if id = cid then v else H id) := by
  induction ids with
  | nil => cases hmem
  | cons i rest ih =>
    simp only [List.map_cons, setSlot]
    by_cases h : i = cid
    · rw [if_pos h, if_pos h]
      subst h
      congr 1
      refine (List.map_congr_left ?_).symm
      intro x hx
      have hxi : x ≠ i := fun hh => (List.nodup_cons.mp hnd).1 (hh ▸ hx)
      rw [if_neg hxi]
    · rw [if_neg h, if_neg h]
      have hmem2 : cid ∈ rest := by
        rcases List.mem_cons.mp hmem with h1 | h1
        · exact absurd h1.symm h
        · exact h1
      rw [ih hmem2 (List.nodup_cons.mp hnd).2]

theorem setSlot_null_on_nulls (ds : List String) (k : String) :
    setSlot k JsVal.null (ds.map fun id => (id, JsVal.null)) =
      (pushKey ds k).map fun id => (id, JsVal.null) := by
  induction ds with
  | nil => simp [setSlot, pushKey]
  | cons d rest ih =>
    simp only [List.map_cons, setSlot]
    by_cases h : d = k
    · rw [if_pos h]
      have hk : k ∈ d :: rest := by
        rw [List.mem_cons]
        exact Or.inl h.symm
      unfold pushKey
      rw [if_pos hk]
      simp
    · rw [if_neg h, ih]
      unfold pushKey
      by_cases hk : k ∈ rest
      · rw [if_pos hk, if_pos (List.mem_cons_of_mem d hk)]
        simp
      · rw [if_neg hk, if_neg fun hc => by
          rcases List.mem_cons.mp hc with h1 | h1
          · exact h h1.symm
          · exact hk h1]
        simp

theorem foldl_setSlot_null (ids : List String) (ds : List String) :
    ids.foldl (fun acc id => setSlot id JsVal.null acc) (ds.map fun id => (id, JsVal.null)) =
      (ids.foldl pushKey ds).map fun id => (id, JsVal.null) := by
  induction ids generalizing ds with
  | nil => rfl
  | cons i rest ih =>
    rw [List.foldl_cons, List.foldl_cons, setSlot_null_on_nulls, ih]

theorem initSlots_eq (ids : List String) :
    initSlots ids = (firstDedup ids).map fun id => (id, JsVal.null) := by
  have h := foldl_setSlot_null ids []
  simpa [initSlots, firstDedup] using h

theorem updateRow_map {ms : List Nat} {key : Nat → String} {G : Nat → ChartRow} {m0 : Nat}
    {f : ChartRow → ChartRow} (hnd : ms.Nodup) (hinj : ∀ m ∈ ms, key m = key m0 → m = m0) :
    updateRow (key m0) f (ms.map fun m => (key m, G m)) =
      ms.map fun m => (key m, if m = m0 then f (G m) else G m) := by
  induction ms with
  | nil => rfl
  | cons m rest ih =>
    simp only [List.map_cons, updateRow]
    by_cases hk : key m = key m0
    · have hm : m = m0 := hinj m (List.mem_cons_self m rest) hk
      rw [if_pos hk, if_pos hm]
      subst hm
      congr 1
      refine (List.map_congr_left ?_).symm
      intro x hx
      have hxm : x ≠ m := fun hh => (List.nodup_cons.mp hnd).1 (hh ▸ hx)
      rw [if_neg hxm]
    · have hm : m ≠ m0 := fun h => hk (by rw [h])
      rw [if_neg hk, if_neg hm,
        ih (List.nodup_cons.mp hnd).2 fun x hx => hinj x (List.mem_cons_of_mem m hx)]

theorem updateRow_append_last {l : List (String × ChartRow)} {key : String}
    {f : ChartRow → ChartRow} {row : ChartRow} (h : ∀ p ∈ l, p.1 ≠ key) :
    updateRow key f (l ++ [(key, row)]) = l ++ [(key, f row)] := by
  induction l with
  | nil => simp [updateRow]
  | cons p rest ih =>
    obtain ⟨k1, r1⟩ := p
    simp only [List.cons_append, updateRow]
    rw [if_neg (h (k1, r1) (List.mem_cons_self _ _))]
    exact congrArg (List.cons (k1, r1)) (ih fun q hq => h q (List.mem_cons_of_mem _ hq))

/-! ## Characterization of the grouping fold -/

theorem lastWriteSteps_append_single (done : List (String × MonthlyMetric))
    (s : String × MonthlyMetric) (id : String) (m : Nat) :
    lastWriteSteps (done ++ [s]) id m =
      if s.1 = id ∧ s.2.month = some m then some s.2 else lastWriteSteps done id m := by
  unfold lastWriteSteps
  rw [List.filter_append]
  by_cases h : s.1 = id ∧ s.2.month = some m
  · rw [if_pos h]
    have hf : List.filter (fun t => decide (t.1 = id) && decide (t.2.month = some m)) [s]
        = [s] := by
      simp [List.filter, h.1, h.2]
    rw [hf, List.getLast?_append]
    simp
  · rw [if_neg h]
    have hf : List.filter (fun t => decide (t.1 = id) && decide (t.2.month = some m)) [s]
        = [] := by
      rcases not_and_or.mp h with h1 | h1 <;> simp [List.filter, h1]
    rw [hf, List.getLast?_append]
    simp

theorem lastWriteSteps_eq_none {done : List (String × MonthlyMetric)} {id : String} {m : Nat}
    (h : m ∉ done.map monthOf) : lastWriteSteps done id m = none := by
  unfold lastWriteSteps
  have hf : done.filter (fun t => decide (t.1 = id) && decide (t.2.month = some m)) = [] := by
    rw [List.filter_eq_nil_iff]
    intro t ht
    simp only [Bool.and_eq_true, decide_eq_true_eq, not_and]
    intro _ hmonth
    exact absurd (List.mem_map.mpr ⟨t, ht, by simp [monthOf, hmonth]⟩) h
  rw [hf]
  rfl

theorem slotsAfter_append_of_ne (resolve : MonthlyMetric → JsVal) (allIds : List String)
    (done : List (String × MonthlyMetric)) (s : String × MonthlyMetric) {m : Nat}
    (hne : s.2.month ≠ some m) :
    slotsAfter resolve allIds (done ++ [s]) m = slotsAfter resolve allIds done m := by
  unfold slotsAfter
  refine List.map_congr_left ?_
  intro id _
  rw [lastWriteSteps_append_single, if_neg fun hc => hne hc.2]

theorem slotsAfter_append_of_eq (resolve : MonthlyMetric → JsVal) (allIds : List String)
    (done : List (String × MonthlyMetric)) (s : String × MonthlyMetric) {m0 : Nat}
    (hm : s.2.month = some m0) (hcid : s.1 ∈ allIds) :
    slotsAfter resolve allIds (done ++ [s]) m0 =
      setSlot s.1 (resolve s.2) (slotsAfter resolve allIds done m0) := by
  unfold slotsAfter
  rw [setSlot_map_of_mem (mem_firstDedup.mpr hcid) (nodup_firstDedup _)]
  refine List.map_congr_left ?_
  intro id _
  rw [lastWriteSteps_append_single]
  by_cases hid : s.1 = id
  · rw [if_pos ⟨hid, hm⟩, if_pos hid.symm]
  · rw [if_neg fun hc => hid hc.1, if_neg fun hc => hid hc.symm]

theorem slotsAfter_eq_init (resolve : MonthlyMetric → JsVal) (allIds : List String)
    {done : List (String × MonthlyMetric)} {m : Nat} (h : m ∉ done.map monthOf) :
    slotsAfter resolve allIds done m = initSlots allIds := by
  rw [initSlots_eq]
  unfold slotsAfter
  refine List.map_congr_left ?_
  intro id _
  rw [lastWriteSteps_eq_none h]

theorem stepFn_gspec (resolve : MonthlyMetric → JsVal) (allIds : List String) (year : Nat)
    (done : List (String × MonthlyMetric)) (s : String × MonthlyMetric) (m0 : Nat)
    (hm : s.2.month = some m0) (h13 : m0 < 13)
    (hdone : ∀ t ∈ done, ∃ mt, t.2.month = some mt ∧ mt < 13)
    (hcid : s.1 ∈ allIds) :
    stepFn allIds resolve year (gspec resolve allIds year done) s =
      some (gspec resolve allIds year (done ++ [s])) := by
  have hms13 : ∀ m ∈ firstDedup (done.map monthOf), m < 13 := by
    intro m hmem
    rcases List.mem_map.mp (mem_firstDedup.mp hmem) with ⟨t, ht, hmt⟩
    rcases hdone t ht with ⟨mt, hmt2, hlt⟩
    rw [← hmt]
    simpa [monthOf, hmt2] using hlt
  have hinj : ∀ m ∈ firstDedup (done.map monthOf),
      mkDateKey year m = mkDateKey year m0 → m = m0 :=
    fun m hmem hk => mkDateKey_inj (hms13 m hmem) h13 hk
  have hs_month : monthOf s = m0 := by simp [monthOf, hm]
  have hkeys : (done ++ [s]).map monthOf = done.map monthOf ++ [m0] := by
    rw [List.map_append, List.map_cons, List.map_nil, hs_month]
  unfold stepFn processMetric
  rw [hm]
  show some _ = _
  unfold gspec
  rw [alookup_map_keys hinj, hkeys, firstDedup_append_single]
  by_cases hmem : m0 ∈ firstDedup (done.map monthOf)
  · rw [if_pos hmem]
    have hpush : pushKey (firstDedup (done.map monthOf)) m0
        = firstDedup (done.map monthOf) := by
      unfold pushKey
      rw [if_pos hmem]
    rw [hpush]
    simp only [Option.isSome_some, if_pos]
    rw [updateRow_map (nodup_firstDedup _) hinj]
    refine congrArg some (List.map_congr_left ?_)
    intro m hmem2
    by_cases hm2 : m = m0
    · subst hm2
      rw [if_pos rfl, slotsAfter_append_of_eq resolve allIds done s hm hcid]
    · rw [if_neg hm2,
        slotsAfter_append_of_ne resolve allIds done s
          (by rw [hm]; exact fun hc => hm2 (Option.some_inj.mp hc).symm)]
  · rw [if_neg hmem]
    have hpush : pushKey (firstDedup (done.map monthOf)) m0
        = firstDedup (done.map monthOf) ++ [m0] := by
      unfold pushKey
      rw [if_neg hmem]
    rw [hpush]
    simp only [Option.isSome_none, Bool.false_eq_true, if_false]
    rw [updateRow_append_last (by
      intro p hp
      rcases List.mem_map.mp hp with ⟨m, hmmem, hpeq⟩
      rw [← hpeq]
      exact fun hk => hmem (hinj m hmmem hk ▸ hmmem))]
    rw [List.map_append]
    refine congrArg some ?_
    refine congrArg₂ (· ++ ·) (List.map_congr_left ?_) ?_
    · intro m hmem2
      have hm2 : m ≠ m0 := fun hh => hmem (hh ▸ hmem2)
      rw [slotsAfter_append_of_ne resolve allIds done s
        (by rw [hm]; exact fun hc => hm2 (Option.some_inj.mp hc).symm)]
    · rw [List.map_cons, List.map_nil]
      rw [slotsAfter_append_of_eq resolve allIds done s hm hcid,
        slotsAfter_eq_init resolve allIds (fun hc => hmem (mem_firstDedup.mpr hc))]

theorem foldlM_stepFn_gspec (resolve : MonthlyMetric → JsVal) (allIds : List String)
    (year : Nat) (todo done : List (String × MonthlyMetric))
    (htodo : ∀ t ∈ todo, ∃ mt, t.2.month = some mt ∧ mt < 13)
    (hdone : ∀ t ∈ done, ∃ mt, t.2.month = some mt ∧ mt < 13)
    (hcid : ∀ t ∈ todo, t.1 ∈ allIds) :
    todo.foldlM (stepFn allIds resolve year) (gspec resolve allIds year done) =
      some (gspec resolve allIds year (done ++ todo)) := by
  induction todo generalizing done with
  | nil => simp
  | cons s rest ih =>
    rcases htodo s (List.mem_cons_self s rest) with ⟨m0, hm, h13⟩
    rw [List.foldlM_cons,
      stepFn_gspec resolve allIds year done s m0 hm h13 hdone
        (hcid s (List.mem_cons_self s rest))]
    show rest.foldlM (stepFn allIds resolve year)
        (gspec resolve allIds year (done ++ [s])) = _
    rw [ih (done ++ [s])
      (fun t ht => htodo t (List.mem_cons_of_mem s ht))
      (by
        intro t ht
        rcases List.mem_append.mp ht with h1 | h1
        · exact hdone t h1
        · rw [List.mem_singleton.mp h1]
          exact ⟨m0, hm, h13⟩)
      (fun t ht => hcid t (List.mem_cons_of_mem s ht))]
    rw [List.append_assoc, List.singleton_append]

theorem foldlM_inner (allIds : List String) (resolve : MonthlyMetric → JsVal) (year : Nat)
    (cid : String) (recs : List MonthlyMetric) (g : List (String × ChartRow)) :
    recs.foldlM (processMetric allIds resolve year cid) g =
      (recs.map fun rec => (cid, rec)).foldlM (stepFn allIds resolve year) g := by
  induction recs generalizing g with
  | nil => rfl
  | cons rec rest ih =>
    rw [List.map_cons, List.foldlM_cons, List.foldlM_cons]
    show (processMetric allIds resolve year cid g rec).bind
        (fun init => List.foldlM (processMetric allIds resolve year cid) init rest) =
      (processMetric allIds resolve year cid g rec).bind
        (fun init => List.foldlM (stepFn allIds resolve year) init
          (rest.map fun rec => (cid, rec)))
    cases processMetric allIds resolve year cid g rec with
    | none => rfl
    | some g2 => simpa using ih g2

theorem foldlM_outer (allIds : List String) (resolve : MonthlyMetric → JsVal) (year : Nat)
    (ents : List (Option String × List MonthlyMetric)) (g : List (String × ChartRow)) :
    ents.foldlM
        (fun g (e : Option String × List MonthlyMetric) =>
          e.2.foldlM (processMetric allIds resolve year (idKey e.1)) g) g =
      (stepsOf ents).foldlM (stepFn allIds resolve year) g := by
  induction ents generalizing g with
  | nil => rfl
  | cons e rest ih =>
    rw [List.foldlM_cons]
    unfold stepsOf
    rw [List.map_cons, List.flatten_cons, List.foldlM_append]
    show (e.2.foldlM (processMetric allIds resolve year (idKey e.1)) g).bind _ =
      ((e.2.map fun rec => (idKey e.1, rec)).foldlM (stepFn allIds resolve year) g).bind _
    rw [foldlM_inner]
    cases (e.2.map fun rec => (idKey e.1, rec)).foldlM (stepFn allIds resolve year) g with
    | none => rfl
    | some g2 => simpa using ih g2

theorem buildSeries_spec (resolve : MonthlyMetric → JsVal)
    (ents : List (Option String × List MonthlyMetric)) (year : Nat)
    (hwf : ∀ t ∈ stepsOf ents, ∃ mt, t.2.month = some mt ∧ mt < 13) :
    buildSeries resolve ents year = some (specRows resolve ents year) := by
  unfold buildSeries
  by_cases hempty : ents.isEmpty
  · rw [if_pos hempty]
    rw [List.isEmpty_iff.mp hempty]
    rfl
  · rw [if_neg hempty]
    rw [foldlM_outer]
    have hcid : ∀ t ∈ stepsOf ents, t.1 ∈ allIdsOf ents := by
      intro t ht
      rcases List.mem_flatten.mp ht with ⟨l, hl, htl⟩
      rcases List.mem_map.mp hl with ⟨e, he, hle⟩
      rcases List.mem_map.mp (hle ▸ htl) with ⟨rec, _, hteq⟩
      rw [← hteq]
      exact List.mem_map.mpr ⟨e, he, rfl⟩
    have h0 := foldlM_stepFn_gspec resolve (allIdsOf ents) year (stepsOf ents) [] hwf
      (by intro t ht; cases ht) hcid
    rw [show gspec resolve (allIdsOf ents) year [] = [] from rfl] at h0
    rw [List.nil_append] at h0
    rw [h0]
    show some (List.insertionSort rowLe
      ((gspec resolve (allIdsOf ents) year (stepsOf ents)).map fun p => p.2)) = _
    refine congrArg some ?_
    unfold gspec specRows
    rw [List.map_map]
    have hcompat : ∀ a ∈ firstDedup ((stepsOf ents).map monthOf),
        ∀ b ∈ firstDedup ((stepsOf ents).map monthOf),
        monthLe a b ↔ rowLe
          (⟨mkDateKey year a, slotsAfter resolve (allIdsOf ents) (stepsOf ents) a⟩ : ChartRow)
          (⟨mkDateKey year b, slotsAfter resolve (allIdsOf ents) (stepsOf ents) b⟩ : ChartRow) := by
      intro a _ b _
      exact (rowLe_mkDateKey_iff year a b _ _).symm
    show List.insertionSort rowLe
        ((firstDedup (List.map monthOf (stepsOf ents))).map fun m =>
          (⟨mkDateKey year m, slotsAfter resolve (allIdsOf ents) (stepsOf ents) m⟩ : ChartRow)) =
      List.map (fun m =>
          (⟨mkDateKey year m, slotsAfter resolve (allIdsOf ents) (stepsOf ents) m⟩ : ChartRow))
        (List.insertionSort monthLe (firstDedup (List.map monthOf (stepsOf ents))))
    rw [← List.map_insertionSort monthLe rowLe (fun m =>
        (⟨mkDateKey year m, slotsAfter resolve (allIdsOf ents) (stepsOf ents) m⟩ : ChartRow))
      (firstDedup (List.map monthOf (stepsOf ents))) hcompat]

/-! ## Helper lemmas for reading off the characterization -/

theorem alookup_map_self {H : String → JsVal} {ds : List String} {id : String} :
    alookup id (ds.map fun i => (i, H i)) = if id ∈ ds then some (H id) else none := by
  induction ds with
  | nil => simp [alookup]
  | cons d rest ih =>
    simp only [List.map_cons, alookup]
    by_cases h : d = id
    · subst h
      simp
    · rw [if_neg h, ih]
      by_cases hmem : id ∈ rest
      · rw [if_pos hmem, if_pos (List.mem_cons_of_mem d hmem)]
      · rw [if_neg hmem, if_neg fun hc => by
          rcases List.mem_cons.mp hc with h1 | h1
          · exact h h1.symm
          · exact hmem h1]

theorem mem_stepsOf {ents : List (Option String × List MonthlyMetric)}
    {t : String × MonthlyMetric} :
    t ∈ stepsOf ents ↔ ∃ e ∈ ents, t.1 = idKey e.1 ∧ t.2 ∈ e.2 := by
  unfold stepsOf
  rw [List.mem_flatten]
  constructor
  · rintro ⟨l, hl, htl⟩
    rcases List.mem_map.mp hl with ⟨e, he, rfl⟩
    rcases List.mem_map.mp htl with ⟨rec, hrec, hteq⟩
    exact ⟨e, he, by rw [← hteq], by rw [← hteq]; exact hrec⟩
  · rintro ⟨e, he, h1, h2⟩
    refine ⟨e.2.map fun rec => (idKey e.1, rec), List.mem_map.mpr ⟨e, he, rfl⟩, ?_⟩
    refine List.mem_map.mpr ⟨t.2, h2, ?_⟩
    obtain ⟨t1, t2⟩ := t
    simp only at h1
    rw [h1]

theorem channels_steps_wf {channels : List Channel}
    (hwf : ∀ c ∈ channels, ∀ rec ∈ c.monthly_metrics,
      ∃ m, rec.month = some m ∧ 1 ≤ m ∧ m ≤ 12) :
    ∀ t ∈ stepsOf (entsOfChannels channels), ∃ mt, t.2.month = some mt ∧ mt < 13 := by
  intro t ht
  rcases mem_stepsOf.mp ht with ⟨e, he, _, hrec⟩
  rcases List.mem_map.mp he with ⟨c, hc, hce⟩
  rcases hwf c hc t.2 (by rw [← hce] at hrec; exact hrec) with ⟨m, h1, h2, h3⟩
  exact ⟨m, h1, by omega⟩

/-! ## Claim C1 -/

/-- C1 counterexample: at `campaign_count = 1/2` the code computes
`(5 * (1/2)) / (100 * (1/10)) = 1/4` because `campaign_count || 1` keeps any
nonzero count, while the claim's formula
`(acquisition_cost * max(campaign_count, 1)) / (clicks * conversion_rate)`
gives `(5 * max(1/2, 1)) / 10 = 1/2`. -/
theorem C1_counterexample :
    resolveChannelMetric (r"cpa")
        { month := some 1, acquisition_cost := some 5, clicks := some 100,
          conversion_rate := some (1/10), campaign_count := some (1/2) } =
      JsVal.num (1/4) ∧
    ((5 : ℚ) * max ((1:ℚ)/2) 1) / (100 * (1/10)) = 1/2 ∧
    JsVal.num ((1:ℚ)/4) ≠ JsVal.num ((1:ℚ)/2) := by
  refine ⟨?_, by norm_num, ?_⟩
  · simp [resolveChannelMetric, cpaGuard, cpaValue, jsTruthy, jsPos, jsOr, toVal]
    norm_num
  · intro h
    have h2 : ((1:ℚ)/4) = 1/2 := JsVal.num.inj h
    norm_num at h2

/-- C1 (amended): for `selectedMetric = cpa` — if the record's `clicks` and
`conversion_rate` are present and positive, the produced value is
`(acquisition_cost * campaignFactor) / (clicks * conversion_rate)`, where
`campaignFactor` is the record's `campaign_count` when present and nonzero
and `1` otherwise (JavaScript `campaign_count || 1`; this agrees with the
claim's `max(campaign_count, 1)` for whole-number counts but not for
fractional or negative ones); otherwise the produced value is the record's
raw `acquisition_cost` field.  In particular `clicks = 100`,
`conversion_rate = 1/10`, `acquisition_cost = 5`, `campaign_count = 2`
yields `1`, and `clicks = 0` yields the raw `acquisition_cost`. -/
theorem C1_amended (rec : MonthlyMetric) :
    (∀ a c q : ℚ, rec.acquisition_cost = some a → rec.clicks = some c → 0 < c →
      rec.conversion_rate = some q → 0 < q →
      resolveChannelMetric (r"cpa") rec =
        JsVal.num (a * jsOr rec.campaign_count 1 / (c * q))) ∧
    (¬ ((∃ c, rec.clicks = some c ∧ 0 < c) ∧ (∃ q, rec.conversion_rate = some q ∧ 0 < q)) →
      resolveChannelMetric (r"cpa") rec = toVal rec.acquisition_cost) ∧
    resolveChannelMetric (r"cpa")
        { month := some 1, acquisition_cost := some 5, clicks := some 100,
          conversion_rate := some (1/10), campaign_count := some 2 } = JsVal.num 1 ∧
    resolveChannelMetric (r"cpa")
        { month := some 1, acquisition_cost := some 5, clicks := some 0,
          conversion_rate := some (1/10) } = JsVal.num 5 := by
  refine ⟨?_, ?_, ?_, ?_⟩
  · intro a c q ha hc hcpos hq hqpos
    have hg : cpaGuard rec = true := by
      simp [cpaGuard, jsTruthy, jsPos, hc, hq, hcpos, hqpos, ne_of_gt]
    simp [resolveChannelMetric, hg, cpaValue, ha, hc, hq]
  · intro hno
    have hg : cpaGuard rec = false := by
      by_contra hcon
      rw [Bool.not_eq_false, cpaGuard] at hcon
      simp only [Bool.and_eq_true] at hcon
      obtain ⟨⟨⟨h1, h2⟩, h3⟩, h4⟩ := hcon
      apply hno
      constructor
      · cases hcl : rec.clicks with
        | none => rw [hcl] at h2; simp [jsPos] at h2
        | some c => exact ⟨c, rfl, by simpa [jsPos, hcl] using h2⟩
      · cases hcr : rec.conversion_rate with
        | none => rw [hcr] at h4; simp [jsPos] at h4
        | some q => exact ⟨q, rfl, by simpa [jsPos, hcr] using h4⟩
    simp [resolveChannelMetric, hg]
  · simp [resolveChannelMetric, cpaGuard, cpaValue, jsTruthy, jsPos, jsOr, toVal]
    norm_num
  · simp [resolveChannelMetric, cpaGuard, cpaValue, jsTruthy, jsPos, jsOr, toVal]

/-- C1 witness: the amended cpa formula applied at the spec's own example
record. -/
theorem C1_witness :
    resolveChannelMetric (r"cpa")
        { month := some 1, acquisition_cost := some 5, clicks := some 100,
          conversion_rate := some (1/10), campaign_count := some 2 } =
      JsVal.num (5 * jsOr (some 2) 1 / (100 * (1/10))) :=
  (C1_amended _).1 5 100 (1/10) rfl rfl (by norm_num) rfl (by norm_num)

/-! ## Claim C7 -/

/-- C7 counterexample: with `selectedMetric = ctr` the channel switch has no
`ctr` case and falls to the default branch, producing the record's `roi`
(here `2`), not its same-named `ctr` field (here `1/2`). -/
theorem C7_counterexample :
    resolveChannelMetric (r"ctr")
        { month := some 1, roi := some 2, ctr := some (1/2) } = JsVal.num 2 ∧
    resolveChannelMetric (r"ctr")
        { month := some 1, roi := some 2, ctr := some (1/2) } ≠
      JsVal.num ((1:ℚ)/2) := by
  refine ⟨rfl, ?_⟩
  show JsVal.num 2 ≠ JsVal.num ((1:ℚ)/2)
  intro h
  have h2 : (2:ℚ) = 1/2 := JsVal.num.inj h
  norm_num at h2

/-- C7 (amended): in the channel switch, `roi`, `conversion` and `spend`
produce the record's same-named field verbatim (`conversion` reads
`conversion_rate`, `spend` reads `total_spend`); the literal selections
`ctr` and `conversion_rate` are not cases of that switch and fall to the
default branch, which reads `roi`.  The audience switch does honor `ctr`
verbatim. -/
theorem C7_amended :
    (∀ rec : MonthlyMetric, resolveChannelMetric (r"roi") rec = toVal rec.roi) ∧
    (∀ rec : MonthlyMetric,
      resolveChannelMetric (r"conversion") rec = toVal rec.conversion_rate) ∧
    (∀ rec : MonthlyMetric, resolveChannelMetric (r"spend") rec = toVal rec.total_spend) ∧
    (∀ rec : MonthlyMetric, resolveChannelMetric (r"ctr") rec = toVal rec.roi) ∧
    (∀ rec : MonthlyMetric, resolveChannelMetric (r"conversion_rate") rec = toVal rec.roi) ∧
    (∀ rec : MonthlyMetric, resolveAudienceMetric (r"ctr") rec = toVal rec.ctr) :=
  ⟨fun _ => rfl, fun _ => rfl, fun _ => rfl, fun _ => rfl, fun _ => rfl, fun _ => rfl⟩

/-! ## Claim C8 -/

/-- C8 counterexample: the selection `acquisition` lies outside the claim's
closed set, yet the audience transformation does not fall back to `roi`
for it — it reads `acquisition_cost` (here `7` against a `roi` of `2`). -/
theorem C8_counterexample :
    transformedChartDataAudiences
        [{ audience_id := some (r"X"),
           monthly_metrics :=
             [{ month := some 1, roi := some 2, acquisition_cost := some 7 }] }]
        (r"acquisition") 2024 ≠
      transformedChartDataAudiences
        [{ audience_id := some (r"X"),
           monthly_metrics :=
             [{ month := some 1, roi := some 2, acquisition_cost := some 7 }] }]
        (r"roi") 2024 := by
  have h1 : transformedChartDataAudiences
      [{ audience_id := some (r"X"),
         monthly_metrics :=
           [{ month := some 1, roi := some 2, acquisition_cost := some 7 }] }]
      (r"acquisition") 2024 =
      some [⟨r"2024-01-01", [(r"X", JsVal.num 7)]⟩] := rfl
  have h2 : transformedChartDataAudiences
      [{ audience_id := some (r"X"),
         monthly_metrics :=
           [{ month := some 1, roi := some 2, acquisition_cost := some 7 }] }]
      (r"roi") 2024 =
      some [⟨r"2024-01-01", [(r"X", JsVal.num 2)]⟩] := rfl
  intro hEq
  rw [h1, h2] at hEq
  simp only [Option.some_inj, List.cons.injEq, ChartRow.mk.injEq, Prod.mk.injEq,
    JsVal.num.injEq, and_true, true_and] at hEq
  norm_num at hEq

/-- C8 (amended): for every selection outside the closed set extended with
the audience alias `acquisition` — that is, outside
`roi, conversion_rate, conversion, acquisition_cost, cpa, ctr, spend,
acquisition` — both grouped transformations behave exactly as if the
selection were `roi`. -/
theorem C8_amended (sel : String)
    (h : sel ∉ ([r"roi", r"conversion_rate", r"conversion", r"acquisition_cost", r"cpa",
      r"ctr", r"spend", r"acquisition"] : List String)) :
    (∀ (channels : List Channel) (year : Nat),
      transformedChartData channels sel year = transformedChartData channels (r"roi") year) ∧
    (∀ (audiences : List Audience) (year : Nat),
      transformedChartDataAudiences audiences sel year =
        transformedChartDataAudiences audiences (r"roi") year) := by
  simp only [List.mem_cons, List.not_mem_nil, or_false, not_or] at h
  obtain ⟨h1, h2, h3, h4, h5, h6, h7, h8⟩ := h
  have hch : resolveChannelMetric sel = resolveChannelMetric (r"roi") := by
    funext rec
    simp [resolveChannelMetric, h1, h3, h5, h7]
  have hau : resolveAudienceMetric sel = resolveAudienceMetric (r"roi") := by
    funext rec
    simp [resolveAudienceMetric, h1, h3, h8, h6]
  constructor
  · intro channels year
    unfold transformedChartData
    rw [hch]
  · intro audiences year
    unfold transformedChartDataAudiences
    rw [hau]

/-- C8 witness: the fallback applied at the unknown selection `bogus`. -/
theorem C8_witness :
    transformedChartData
        [{ channel_id := some (r"A"), monthly_metrics := [{ month := some 1, roi := some 3 }] }]
        (r"bogus") 2024 =
      transformedChartData
        [{ channel_id := some (r"A"), monthly_metrics := [{ month := some 1, roi := some 3 }] }]
        (r"roi") 2024 :=
  (C8_amended (r"bogus") (by decide)).1 _ 2024

/-! ## Claim C5 -/

theorem foldlM_stepFn_isSome (allIds : List String) (resolve : MonthlyMetric → JsVal)
    (year : Nat) (todo : List (String × MonthlyMetric)) (g : List (String × ChartRow)) :
    (todo.foldlM (stepFn allIds resolve year) g).isSome = true ↔
      ∀ t ∈ todo, t.2.month.isSome = true := by
  induction todo generalizing g with
  | nil => simp
  | cons s rest ih =>
    rw [List.foldlM_cons]
    cases hm : s.2.month with
    | none =>
      have hstep : stepFn allIds resolve year g s = none := by
        unfold stepFn processMetric
        rw [hm]
      rw [hstep]
      show (none : Option (List ChartRow)).isSome = true ↔ _
      simp only [Option.isSome_none, Bool.false_eq_true, false_iff, not_forall]
      exact ⟨s, by simp [List.mem_cons_self, hm]⟩
    | some m =>
      have hstep : stepFn allIds resolve year g s =
          some (updateRow (mkDateKey year m)
            (fun row => ⟨row.month, setSlot s.1 (resolve s.2) row.slots⟩)
            (if (alookup (mkDateKey year m) g).isSome then g
             else g ++ [(mkDateKey year m, ⟨mkDateKey year m, initSlots allIds⟩)])) := by
        unfold stepFn processMetric
        rw [hm]
      rw [hstep]
      show (rest.foldlM (stepFn allIds resolve year) _).isSome = true ↔ _
      rw [ih]
      simp [List.forall_mem_cons, hm]

theorem buildSeries_isSome_iff (resolve : MonthlyMetric → JsVal)
    (ents : List (Option String × List MonthlyMetric)) (year : Nat) :
    (buildSeries resolve ents year).isSome = true ↔
      ∀ t ∈ stepsOf ents, t.2.month.isSome = true := by
  unfold buildSeries
  by_cases hempty : ents.isEmpty
  · rw [if_pos hempty, List.isEmpty_iff.mp hempty]
    simp [stepsOf]
  · rw [if_neg hempty, foldlM_outer]
    rw [Option.isSome_map']
    exact foldlM_stepFn_isSome (allIdsOf ents) resolve year (stepsOf ents) []

/-- C5 counterexample: a record without `month` makes the channel
transformation throw (`monthNum.toString()` on `undefined`), modelled as
`none`; without the malformed record the same entity produces a normal
row.  The malformed record is thus neither skipped nor harmless. -/
theorem C5_counterexample :
    transformedChartData
        [{ channel_id := some (r"X"),
           monthly_metrics := [{ month := some 1, roi := some 2 }, { roi := some 3 }] }]
        (r"roi") 2024 = none ∧
    transformedChartData
        [{ channel_id := some (r"X"),
           monthly_metrics := [{ month := some 1, roi := some 2 }] }]
        (r"roi") 2024 =
      some [⟨r"2024-01-01", [(r"X", JsVal.num 2)]⟩] :=
  ⟨rfl, rfl⟩

/-- C5 (amended): the grouped channel transformation does not skip
malformed records: it succeeds exactly when every record of every entity
carries a `month` (a record without one throws a TypeError, modelled as
`none`; an entity without an id is not skipped either — it is grouped
under the literal key `undefined`).  `AudienceTrendChart.transformData`
never throws, and there a record without `month` is dropped without
affecting any other entity's rows. -/
theorem C5_amended :
    (∀ (channels : List Channel) (sel : String) (year : Nat),
      (transformedChartData channels sel year).isSome = true ↔
        ∀ c ∈ channels, ∀ rec ∈ c.monthly_metrics, rec.month.isSome = true) ∧
    (∀ (pre post : List TrendAudience) (id : Option String) (ms : List TrendPoint)
        (rec : TrendPoint) (sel : String), rec.month = none →
      transformData
          (pre ++ { audience_id := id, monthly_metrics := some (rec :: ms) } :: post) sel =
        transformData
          (pre ++ { audience_id := id, monthly_metrics := some ms } :: post) sel) := by
  constructor
  · intro channels sel year
    unfold transformedChartData
    rw [buildSeries_isSome_iff]
    constructor
    · intro h c hc rec hrec
      exact h (idKey c.channel_id, rec)
        (mem_stepsOf.mpr ⟨(c.channel_id, c.monthly_metrics),
          List.mem_map.mpr ⟨c, hc, rfl⟩, rfl, hrec⟩)
    · intro h t ht
      rcases mem_stepsOf.mp ht with ⟨e, he, _, hrec⟩
      rcases List.mem_map.mp he with ⟨c, hc, hce⟩
      exact h c hc t.2 (by rw [← hce] at hrec; exact hrec)
  · intro pre post id ms rec sel hrec
    have hstep1 : ∀ acc : List String,
        collectStep acc { audience_id := id, monthly_metrics := some (rec :: ms) } =
          collectStep acc { audience_id := id, monthly_metrics := some ms } := by
      intro acc
      unfold collectStep
      show (rec :: ms).foldl collectPointStep acc = ms.foldl collectPointStep acc
      rw [List.foldl_cons]
      have hpt : collectPointStep acc rec = acc := by
        unfold collectPointStep
        rw [hrec]
      rw [hpt]
    have hcollect :
        collectMonthKeys
            (pre ++ { audience_id := id, monthly_metrics := some (rec :: ms) } :: post) =
          collectMonthKeys
            (pre ++ { audience_id := id, monthly_metrics := some ms } :: post) := by
      unfold collectMonthKeys
      rw [List.foldl_append, List.foldl_append, List.foldl_cons, List.foldl_cons, hstep1]
    have hslotstep : ∀ (n : Nat) (slots : List (String × JsVal)),
        trendSlotStep sel n slots { audience_id := id, monthly_metrics := some (rec :: ms) } =
          trendSlotStep sel n slots { audience_id := id, monthly_metrics := some ms } := by
      intro n slots
      cases id with
      | none => rfl
      | some aid =>
        show setSlot aid (trendSlotVal sel n (rec :: ms)) slots =
          setSlot aid (trendSlotVal sel n ms) slots
        have hval : trendSlotVal sel n (rec :: ms) = trendSlotVal sel n ms := by
          unfold trendSlotVal
          have hfind : (rec :: ms).find? (fun p => p.month == some n) =
              ms.find? (fun p => p.month == some n) := by
            simp [List.find?, hrec]
          rw [hfind]
        rw [hval]
    have hslots : ∀ n,
        trendSlots
            (pre ++ { audience_id := id, monthly_metrics := some (rec :: ms) } :: post)
            sel n =
          trendSlots
            (pre ++ { audience_id := id, monthly_metrics := some ms } :: post) sel n := by
      intro n
      unfold trendSlots
      rw [List.foldl_append, List.foldl_append, List.foldl_cons, List.foldl_cons, hslotstep]
    have hneA :
        (pre ++ { audience_id := id, monthly_metrics := some (rec :: ms) } :: post).isEmpty
          = false := by
      simp
    have hneB :
        (pre ++ { audience_id := id, monthly_metrics := some ms } :: post).isEmpty
          = false := by
      simp
    unfold transformData
    rw [hcollect, hneA, hneB]
    simp only [Bool.false_eq_true, if_false]
    by_cases hs : (List.insertionSort keyLe (collectMonthKeys
        (pre ++ { audience_id := id, monthly_metrics := some ms } :: post))).isEmpty = true
    · rw [if_pos hs, if_pos hs]
    · rw [if_neg hs, if_neg hs]
      refine List.map_congr_left ?_
      intro monthStr _
      rw [hslots (monthOfKey monthStr)]

/-- C5 witness: the amended statement applied at a concrete malformed
record, dropped without affecting the other audience's rows. -/
theorem C5_witness :
    transformData
        [{ audience_id := some (r"A"),
           monthly_metrics := some [{ fields := [(r"roi", 1)] },
             { month := some 2, fields := [(r"roi", 3)] }] }] (r"roi") =
      transformData
        [{ audience_id := some (r"A"),
           monthly_metrics := some [{ month := some 2, fields := [(r"roi", 3)] }] }]
        (r"roi") :=
  (C5_amended).2 [] [] (some (r"A")) [{ month := some 2, fields := [(r"roi", 3)] }]
    { fields := [(r"roi", 1)] } (r"roi") rfl

/-! ## Reading the characterization off for the claims -/

theorem ents_steps_wf {ents : List (Option String × List MonthlyMetric)}
    (hwf : ∀ e ∈ ents, ∀ rec ∈ e.2, ∃ m, rec.month = some m ∧ 1 ≤ m ∧ m ≤ 12) :
    ∀ t ∈ stepsOf ents, ∃ mt, t.2.month = some mt ∧ mt < 13 := by
  intro t ht
  rcases mem_stepsOf.mp ht with ⟨e, he, _, hrec⟩
  rcases hwf e he t.2 hrec with ⟨m, h1, h2, h3⟩
  exact ⟨m, h1, by omega⟩

theorem transformedChartData_spec (channels : List Channel) (sel : String) (year : Nat)
    (hwf : ∀ c ∈ channels, ∀ rec ∈ c.monthly_metrics,
      ∃ m, rec.month = some m ∧ 1 ≤ m ∧ m ≤ 12) :
    transformedChartData channels sel year =
      some (specRows (resolveChannelMetric sel) (entsOfChannels channels) year) := by
  unfold transformedChartData
  refine buildSeries_spec _ _ _ (ents_steps_wf ?_)
  intro e he rec hrec
  rcases List.mem_map.mp he with ⟨c, hc, hce⟩
  exact hwf c hc rec (by rw [← hce] at hrec; exact hrec)

theorem transformedChartDataAudiences_spec (audiences : List Audience) (sel : String)
    (year : Nat)
    (hwf : ∀ a ∈ audiences, ∀ rec ∈ a.monthly_metrics,
      ∃ m, rec.month = some m ∧ 1 ≤ m ∧ m ≤ 12) :
    transformedChartDataAudiences audiences sel year =
      some (specRows (resolveAudienceMetric sel) (entsOfAudiences audiences) year) := by
  unfold transformedChartDataAudiences
  refine buildSeries_spec _ _ _ (ents_steps_wf ?_)
  intro e he rec hrec
  rcases List.mem_map.mp he with ⟨a, ha, hae⟩
  exact hwf a ha rec (by rw [← hae] at hrec; exact hrec)

theorem foldl_pushKey_map {α β : Type} [DecidableEq α] [DecidableEq β] {f : α → β}
    (l acc : List α)
    (H : ∀ p, (p ∈ l ∨ p ∈ acc) → ∀ q, (q ∈ l ∨ q ∈ acc) → f p = f q → p = q) :
    (l.map f).foldl pushKey (acc.map f) = (l.foldl pushKey acc).map f := by
  induction l generalizing acc with
  | nil => rfl
  | cons x l ih =>
    rw [List.map_cons, List.foldl_cons, List.foldl_cons]
    have hpk : pushKey (acc.map f) (f x) = (pushKey acc x).map f := by
      unfold pushKey
      by_cases hx : x ∈ acc
      · rw [if_pos (List.mem_map.mpr ⟨x, hx, rfl⟩), if_pos hx]
      · rw [if_neg fun hc => by
          rcases List.mem_map.mp hc with ⟨y, hy, hfy⟩
          have hyx : y = x := H y (Or.inr hy) x (Or.inl (List.mem_cons_self x l)) hfy
          exact hx (hyx ▸ hy), if_neg hx]
        rw [List.map_append]
        rfl
    rw [hpk, ih (pushKey acc x) fun p hp q hq hfpq =>
      H p (by
        rcases hp with hp | hp
        · exact Or.inl (List.mem_cons_of_mem x hp)
        · rcases mem_pushKey.mp hp with hp | hp
          · exact Or.inr hp
          · exact Or.inl (hp ▸ List.mem_cons_self x l))
        q (by
          rcases hq with hq | hq
          · exact Or.inl (List.mem_cons_of_mem x hq)
          · rcases mem_pushKey.mp hq with hq | hq
            · exact Or.inr hq
            · exact Or.inl (hq ▸ List.mem_cons_self x l)) hfpq]

theorem firstDedup_map_inj {α β : Type} [DecidableEq α] [DecidableEq β] {f : α → β}
    {l : List α} (hinj : ∀ p ∈ l, ∀ q ∈ l, f p = f q → p = q) :
    firstDedup (l.map f) = (firstDedup l).map f := by
  unfold firstDedup
  have h := foldl_pushKey_map (f := f) l [] (by
    intro p hp q hq hf
    rcases hp with hp | hp
    · rcases hq with hq | hq
      · exact hinj p hp q hq hf
      · cases hq
    · cases hp)
  simpa using h

theorem months_lt_13 {ents : List (Option String × List MonthlyMetric)}
    (hwf : ∀ t ∈ stepsOf ents, ∃ mt, t.2.month = some mt ∧ mt < 13) :
    ∀ m ∈ (stepsOf ents).map monthOf, m < 13 := by
  intro m hm
  rcases List.mem_map.mp hm with ⟨t, ht, hmt⟩
  rcases hwf t ht with ⟨mt, h1, h2⟩
  rw [← hmt]
  simpa [monthOf, h1] using h2

theorem specRows_month_map (resolve : MonthlyMetric → JsVal)
    (ents : List (Option String × List MonthlyMetric)) (year : Nat) :
    ((specRows resolve ents year).map fun row => row.month) =
      (List.insertionSort monthLe (firstDedup ((stepsOf ents).map monthOf))).map
        (mkDateKey year) := by
  unfold specRows
  rw [List.map_map]
  rfl

theorem specRows_nodup (resolve : MonthlyMetric → JsVal)
    (ents : List (Option String × List MonthlyMetric)) (year : Nat)
    (h13 : ∀ m ∈ (stepsOf ents).map monthOf, m < 13) :
    ((specRows resolve ents year).map fun row => row.month).Nodup := by
  rw [specRows_month_map]
  refine List.Nodup.map_on ?_ ?_
  · intro x hx y hy hxy
    exact mkDateKey_inj
      (h13 x (mem_firstDedup.mp ((List.mem_insertionSort monthLe).mp hx)))
      (h13 y (mem_firstDedup.mp ((List.mem_insertionSort monthLe).mp hy))) hxy
  · exact (List.perm_insertionSort monthLe _).nodup_iff.mpr (nodup_firstDedup _)

theorem specRows_length (resolve : MonthlyMetric → JsVal)
    (ents : List (Option String × List MonthlyMetric)) (year : Nat)
    (h13 : ∀ m ∈ (stepsOf ents).map monthOf, m < 13) :
    (specRows resolve ents year).length =
      (firstDedup ((stepsOf ents).map fun t => mkDateKey year (monthOf t))).length := by
  have hmap : ((stepsOf ents).map fun t => mkDateKey year (monthOf t)) =
      ((stepsOf ents).map monthOf).map (mkDateKey year) := by
    rw [List.map_map]
    rfl
  rw [hmap, firstDedup_map_inj fun p hp q hq h => mkDateKey_inj (h13 p hp) (h13 q hq) h]
  unfold specRows
  rw [List.length_map, List.length_map, List.length_insertionSort]

theorem specRows_mem_month (resolve : MonthlyMetric → JsVal)
    (ents : List (Option String × List MonthlyMetric)) (year : Nat) (k : String) :
    (k ∈ (specRows resolve ents year).map fun row => row.month) ↔
      k ∈ (stepsOf ents).map fun t => mkDateKey year (monthOf t) := by
  rw [specRows_month_map]
  constructor
  · intro hk
    rcases List.mem_map.mp hk with ⟨m, hm, hkm⟩
    have hmm : m ∈ (stepsOf ents).map monthOf :=
      mem_firstDedup.mp ((List.mem_insertionSort monthLe).mp hm)
    rcases List.mem_map.mp hmm with ⟨t, ht, hmt⟩
    exact List.mem_map.mpr ⟨t, ht, by rw [hmt, hkm]⟩
  · intro hk
    rcases List.mem_map.mp hk with ⟨t, ht, hkt⟩
    refine List.mem_map.mpr ⟨monthOf t, ?_, hkt⟩
    exact (List.mem_insertionSort monthLe).mpr
      (mem_firstDedup.mpr (List.mem_map.mpr ⟨t, ht, rfl⟩))

theorem specRows_sorted (resolve : MonthlyMetric → JsVal)
    (ents : List (Option String × List MonthlyMetric)) (year : Nat)
    (h13 : ∀ m ∈ (stepsOf ents).map monthOf, m < 13) :
    List.Pairwise rowLt (specRows resolve ents year) := by
  unfold specRows
  have hsorted : List.Pairwise monthLe
      (List.insertionSort monthLe (firstDedup ((stepsOf ents).map monthOf))) :=
    List.sorted_insertionSort monthLe _
  have hnd : (List.insertionSort monthLe (firstDedup ((stepsOf ents).map monthOf))).Nodup :=
    (List.perm_insertionSort monthLe _).nodup_iff.mpr (nodup_firstDedup _)
  have hmem : ∀ m ∈ List.insertionSort monthLe (firstDedup ((stepsOf ents).map monthOf)),
      m < 13 :=
    fun m hm => h13 m (mem_firstDedup.mp ((List.mem_insertionSort monthLe).mp hm))
  have hlt : List.Pairwise
      (fun a b => keyLt (mkDateKey year a) (mkDateKey year b))
      (List.insertionSort monthLe (firstDedup ((stepsOf ents).map monthOf))) := by
    refine List.Pairwise.imp_of_mem ?_ (hsorted.and hnd)
    intro a b ha hb hab
    refine keyLt_of_keyLe_of_ne ?_ ?_
    · exact (keyLe_append_left_iff (toString year) (sufKey a) (sufKey b)).mpr hab.1
    · intro hEq
      exact hab.2 (mkDateKey_inj (hmem a ha) (hmem b hb) hEq)
  exact hlt.map _ fun a b h => h

/-! ## Claim C4 -/

/-- C4: for channel inputs whose records all carry a month in `1..12`, the
transformation succeeds and the produced table has pairwise-distinct date
keys, exactly one row per distinct date key derivable from the input, the
date keys of the rows are exactly the derivable ones, and the rows are
strictly ascending by date key. -/
theorem C4_unique_sorted (channels : List Channel) (sel : String) (year : Nat)
    (hwf : ∀ c ∈ channels, ∀ rec ∈ c.monthly_metrics,
      ∃ m, rec.month = some m ∧ 1 ≤ m ∧ m ≤ 12) :
    ∃ rows, transformedChartData channels sel year = some rows ∧
      (rows.map fun row => row.month).Nodup ∧
      rows.length = (firstDedup ((stepsOf (entsOfChannels channels)).map
        fun t => mkDateKey year (monthOf t))).length ∧
      (∀ k, (k ∈ rows.map fun row => row.month) ↔
        k ∈ (stepsOf (entsOfChannels channels)).map fun t => mkDateKey year (monthOf t)) ∧
      List.Pairwise rowLt rows := by
  have h13 : ∀ m ∈ (stepsOf (entsOfChannels channels)).map monthOf, m < 13 :=
    months_lt_13 (channels_steps_wf hwf)
  exact ⟨_, transformedChartData_spec channels sel year hwf,
    specRows_nodup _ _ _ h13, specRows_length _ _ _ h13,
    fun k => specRows_mem_month _ _ _ k, specRows_sorted _ _ _ h13⟩

/-- C4 witness: the uniqueness and sortedness statement applied to a
concrete two-channel input. -/
theorem C4_witness :
    ∃ rows, transformedChartData
        [{ channel_id := some (r"A"), monthly_metrics := [{ month := some 3, roi := some 1 }] },
         { channel_id := some (r"B"), monthly_metrics := [{ month := some 1, roi := some 2 }] }]
        (r"roi") 2024 = some rows ∧
      (rows.map fun row => row.month).Nodup ∧
      rows.length = (firstDedup ((stepsOf (entsOfChannels
        [{ channel_id := some (r"A"), monthly_metrics := [{ month := some 3, roi := some 1 }] },
         { channel_id := some (r"B"), monthly_metrics := [{ month := some 1, roi := some 2 }] }])).map
        fun t => mkDateKey 2024 (monthOf t))).length ∧
      (∀ k, (k ∈ rows.map fun row => row.month) ↔
        k ∈ (stepsOf (entsOfChannels
          [{ channel_id := some (r"A"), monthly_metrics := [{ month := some 3, roi := some 1 }] },
           { channel_id := some (r"B"), monthly_metrics := [{ month := some 1, roi := some 2 }] }])).map
          fun t => mkDateKey 2024 (monthOf t)) ∧
      List.Pairwise rowLt rows :=
  C4_unique_sorted _ (r"roi") 2024 (by
    intro c hc rec hrec
    fin_cases hc <;> fin_cases hrec
    · exact ⟨3, rfl, by norm_num, by norm_num⟩
    · exact ⟨1, rfl, by norm_num, by norm_num⟩)

theorem specRows_slot (resolve : MonthlyMetric → JsVal)
    (ents : List (Option String × List MonthlyMetric)) (year : Nat)
    {e : Option String × List MonthlyMetric} {m : Nat}
    (hmem_month : m ∈ (stepsOf ents).map monthOf) (he : e ∈ ents) :
    ∃ row ∈ specRows resolve ents year, row.month = mkDateKey year m ∧
      alookup (idKey e.1) row.slots =
        some (match lastWriteSteps (stepsOf ents) (idKey e.1) m with
          | some rec => resolve rec
          | none => JsVal.null) := by
  refine ⟨⟨mkDateKey year m, slotsAfter resolve (allIdsOf ents) (stepsOf ents) m⟩,
    ?_, rfl, ?_⟩
  · unfold specRows
    exact List.mem_map.mpr ⟨m,
      (List.mem_insertionSort monthLe).mpr (mem_firstDedup.mpr hmem_month), rfl⟩
  · show alookup (idKey e.1) (slotsAfter resolve (allIdsOf ents) (stepsOf ents) m) = _
    unfold slotsAfter
    have hmem : idKey e.1 ∈ firstDedup (allIdsOf ents) :=
      mem_firstDedup.mpr (by
        unfold allIdsOf
        exact List.mem_map.mpr ⟨e, he, rfl⟩)
    rw [alookup_map_self, if_pos hmem]

theorem specRows_slot_isSome (resolve : MonthlyMetric → JsVal)
    (ents : List (Option String × List MonthlyMetric)) (year : Nat) :
    ∀ row ∈ specRows resolve ents year, ∀ e ∈ ents,
      (alookup (idKey e.1) row.slots).isSome = true := by
  intro row hrow e he
  unfold specRows at hrow
  rcases List.mem_map.mp hrow with ⟨m, _, hrowm⟩
  rw [← hrowm]
  show (alookup (idKey e.1) (slotsAfter resolve (allIdsOf ents) (stepsOf ents) m)).isSome
    = true
  unfold slotsAfter
  have hmem : idKey e.1 ∈ firstDedup (allIdsOf ents) :=
    mem_firstDedup.mpr (by
      unfold allIdsOf
      exact List.mem_map.mpr ⟨e, he, rfl⟩)
  rw [alookup_map_self, if_pos hmem]
  rfl

/-! ## Claim C6 -/

/-- C6: in both grouped transformations, with months present and in 1..12,
every produced row carries a slot for every entity's property key — also
for rows built from months in which that entity has no record. -/
theorem C6_every_slot :
    (∀ (channels : List Channel) (sel : String) (year : Nat),
      (∀ c ∈ channels, ∀ rec ∈ c.monthly_metrics,
        ∃ m, rec.month = some m ∧ 1 ≤ m ∧ m ≤ 12) →
      ∃ rows, transformedChartData channels sel year = some rows ∧
        ∀ row ∈ rows, ∀ c ∈ channels,
          (alookup (idKey c.channel_id) row.slots).isSome = true) ∧
    (∀ (audiences : List Audience) (sel : String) (year : Nat),
      (∀ a ∈ audiences, ∀ rec ∈ a.monthly_metrics,
        ∃ m, rec.month = some m ∧ 1 ≤ m ∧ m ≤ 12) →
      ∃ rows, transformedChartDataAudiences audiences sel year = some rows ∧
        ∀ row ∈ rows, ∀ a ∈ audiences,
          (alookup (idKey a.audience_id) row.slots).isSome = true) := by
  constructor
  · intro channels sel year hwf
    refine ⟨_, transformedChartData_spec channels sel year hwf, ?_⟩
    intro row hrow c hc
    exact specRows_slot_isSome _ _ _ row hrow (c.channel_id, c.monthly_metrics)
      (List.mem_map.mpr ⟨c, hc, rfl⟩)
  · intro audiences sel year hwf
    refine ⟨_, transformedChartDataAudiences_spec audiences sel year hwf, ?_⟩
    intro row hrow a ha
    exact specRows_slot_isSome _ _ _ row hrow (a.audience_id, a.monthly_metrics)
      (List.mem_map.mpr ⟨a, ha, rfl⟩)

/-- C6 witness: every row of a concrete two-channel table has a slot for
both channels, including the months each channel lacks. -/
theorem C6_witness :
    ∃ rows, transformedChartData
        [{ channel_id := some (r"A"), monthly_metrics := [{ month := some 3, roi := some 1 }] },
         { channel_id := some (r"B"), monthly_metrics := [{ month := some 1, roi := some 2 }] }]
        (r"roi") 2024 = some rows ∧
      ∀ row ∈ rows, ∀ c ∈
        [{ channel_id := some (r"A"), monthly_metrics := [{ month := some 3, roi := some 1 }] },
         ({ channel_id := some (r"B"),
            monthly_metrics := [{ month := some 1, roi := some 2 }] } : Channel)],
        (alookup (idKey c.channel_id) row.slots).isSome = true :=
  C6_every_slot.1 _ (r"roi") 2024 (by
    intro c hc rec hrec
    fin_cases hc <;> fin_cases hrec
    · exact ⟨3, rfl, by norm_num, by norm_num⟩
    · exact ⟨1, rfl, by norm_num, by norm_num⟩)

/-! ## Claim C2 -/

theorem lastWriteSteps_channels_none {channels : List Channel} {A : Channel} {m : Nat}
    (hids : (channels.map fun c => idKey c.channel_id).Nodup)
    (hA : A ∈ channels)
    (hnoA : ∀ recA ∈ A.monthly_metrics, recA.month ≠ some m) :
    lastWriteSteps (stepsOf (entsOfChannels channels)) (idKey A.channel_id) m = none := by
  unfold lastWriteSteps
  have hf : (stepsOf (entsOfChannels channels)).filter
      (fun t => decide (t.1 = idKey A.channel_id) && decide (t.2.month = some m)) = [] := by
    rw [List.filter_eq_nil_iff]
    intro t ht
    simp only [Bool.and_eq_true, decide_eq_true_eq, not_and]
    intro h1 h2
    rcases mem_stepsOf.mp ht with ⟨e, he, hid, hrec⟩
    rcases List.mem_map.mp he with ⟨c, hc, hce⟩
    have hkey : idKey c.channel_id = idKey A.channel_id := by
      rw [← h1, hid, ← hce]
    have hcA : c = A := List.inj_on_of_nodup_map hids hc hA hkey
    rw [← hce] at hrec
    rw [hcA] at hrec
    exact hnoA t.2 hrec h2
  rw [hf]
  rfl

theorem alookup_trendSlotStep_skip {sel : String} {n : Nat} {aid : String}
    (slots : List (String × JsVal)) (B : TrendAudience)
    (hB : ¬ (B.audience_id = some aid ∧ B.monthly_metrics.isSome = true)) :
    alookup aid (trendSlotStep sel n slots B) = alookup aid slots := by
  unfold trendSlotStep
  cases hid : B.audience_id with
  | none => rfl
  | some aid2 =>
    cases hpts : B.monthly_metrics with
    | none => rfl
    | some pts =>
      have hne : aid2 ≠ aid := fun hh => hB ⟨by rw [hid, hh], by rw [hpts]; rfl⟩
      simp [alookup_setSlot, hne]

theorem alookup_trendSlotStep_zero {sel : String} {n : Nat} {aid : String}
    (slots : List (String × JsVal)) (B : TrendAudience) {pts : List TrendPoint}
    (hid : B.audience_id = some aid) (hpts : B.monthly_metrics = some pts)
    (hfind : pts.find? (fun p => p.month == some n) = none) :
    alookup aid (trendSlotStep sel n slots B) = some (JsVal.num 0) := by
  simp [trendSlotStep, trendSlotVal, hid, hpts, hfind, alookup_setSlot]

theorem alookup_foldl_trend_zero {sel : String} {n : Nat} {aid : String}
    (auds : List TrendAudience) (slots0 : List (String × JsVal))
    (hz : ∀ B ∈ auds, B.audience_id = some aid → ∀ pts, B.monthly_metrics = some pts →
      pts.find? (fun p => p.month == some n) = none) :
    alookup aid (auds.foldl (trendSlotStep sel n) slots0) = some (JsVal.num 0) ∨
      alookup aid (auds.foldl (trendSlotStep sel n) slots0) = alookup aid slots0 := by
  induction auds generalizing slots0 with
  | nil => exact Or.inr rfl
  | cons B rest ih =>
    rw [List.foldl_cons]
    have hzrest : ∀ B2 ∈ rest, B2.audience_id = some aid → ∀ pts,
        B2.monthly_metrics = some pts → pts.find? (fun p => p.month == some n) = none :=
      fun B2 hB2 => hz B2 (List.mem_cons_of_mem B hB2)
    by_cases hw : B.audience_id = some aid ∧ B.monthly_metrics.isSome = true
    · obtain ⟨hid, hsome⟩ := hw
      obtain ⟨pts, hpts⟩ := Option.isSome_iff_exists.mp hsome
      have hstep : alookup aid (trendSlotStep sel n slots0 B) = some (JsVal.num 0) :=
        alookup_trendSlotStep_zero slots0 B hid hpts
          (hz B (List.mem_cons_self B rest) hid pts hpts)
      rcases ih (trendSlotStep sel n slots0 B) hzrest with h | h
      · exact Or.inl h
      · exact Or.inl (h.trans hstep)
    · have hstep : alookup aid (trendSlotStep sel n slots0 B) = alookup aid slots0 :=
        alookup_trendSlotStep_skip slots0 B hw
      rcases ih (trendSlotStep sel n slots0 B) hzrest with h | h
      · exact Or.inl h
      · exact Or.inr (h.trans hstep)

/-- C2 counterexample: the spec's own two-audience scenario, run through
`AudienceTrendChart.transformData` — the absent entity/month slots hold the
number `0`, not the `null` missing marker. -/
theorem C2_counterexample :
    transformData
        [{ audience_id := some (r"A"),
           monthly_metrics := some [{ month := some 1, fields := [(r"roi", 5/2)] }] },
         { audience_id := some (r"B"),
           monthly_metrics := some [{ month := some 2, fields := [(r"roi", 3)] }] }]
        (r"roi") =
      [⟨r"2024-01", [(r"A", JsVal.num (5/2)), (r"B", JsVal.num 0)]⟩,
       ⟨r"2024-02", [(r"A", JsVal.num 0), (r"B", JsVal.num 3)]⟩] ∧
    JsVal.num 0 ≠ JsVal.null :=
  ⟨rfl, fun h => JsVal.noConfusion h⟩

/-- C2 (amended): in the grouped transformations the slot of an entity
without a record for a month another entity reports is the explicit `null`
marker; in `AudienceTrendChart.transformData` such a slot holds the number
`0` instead. -/
theorem C2_missing_slot :
    (∀ (channels : List Channel) (sel : String) (year : Nat) (A B : Channel)
        (mB : Nat) (recB : MonthlyMetric),
      (∀ c ∈ channels, ∀ rec ∈ c.monthly_metrics,
        ∃ m, rec.month = some m ∧ 1 ≤ m ∧ m ≤ 12) →
      (channels.map fun c => idKey c.channel_id).Nodup →
      A ∈ channels → B ∈ channels → recB ∈ B.monthly_metrics → recB.month = some mB →
      (∀ recA ∈ A.monthly_metrics, recA.month ≠ some mB) →
      ∃ rows row, transformedChartData channels sel year = some rows ∧ row ∈ rows ∧
        row.month = mkDateKey year mB ∧
        alookup (idKey A.channel_id) row.slots = some JsVal.null) ∧
    (∀ (auds : List TrendAudience) (sel : String) (A : TrendAudience) (aid : String)
        (pts : List TrendPoint) (monthStr : String),
      A ∈ auds → A.audience_id = some aid → A.monthly_metrics = some pts →
      (∀ B ∈ auds, B.audience_id = some aid → B = A) →
      (∀ p ∈ pts, p.month ≠ some (monthOfKey monthStr)) →
      ∀ row ∈ transformData auds sel, row.month = monthStr →
        alookup aid row.slots = some (JsVal.num 0)) := by
  constructor
  · intro channels sel year A B mB recB hwf hids hA hB hrecB hmB hnoA
    have hmem_month : mB ∈ (stepsOf (entsOfChannels channels)).map monthOf :=
      List.mem_map.mpr ⟨(idKey B.channel_id, recB),
        mem_stepsOf.mpr ⟨(B.channel_id, B.monthly_metrics),
          List.mem_map.mpr ⟨B, hB, rfl⟩, rfl, hrecB⟩,
        by simp [monthOf, hmB]⟩
    obtain ⟨row, hrowmem, hrowmonth, hslot⟩ :=
      specRows_slot (resolveChannelMetric sel) (entsOfChannels channels) year
        (e := (A.channel_id, A.monthly_metrics)) hmem_month (List.mem_map.mpr ⟨A, hA, rfl⟩)
    refine ⟨_, row, transformedChartData_spec channels sel year hwf, hrowmem, hrowmonth, ?_⟩
    rw [lastWriteSteps_channels_none hids hA hnoA] at hslot
    exact hslot
  · intro auds sel A aid pts monthStr hAmem hid hpts huniq hnorec row hrow hmonth
    have hfind : pts.find? (fun p => p.month == some (monthOfKey monthStr)) = none := by
      rw [List.find?_eq_none]
      intro p hp
      simp only [beq_iff_eq]
      exact hnorec p hp
    have hz : ∀ B ∈ auds, B.audience_id = some aid → ∀ pts2,
        B.monthly_metrics = some pts2 →
        pts2.find? (fun p => p.month == some (monthOfKey monthStr)) = none := by
      intro B hB hBid pts2 hBpts
      have hBA : B = A := huniq B hB hBid
      rw [hBA, hpts] at hBpts
      rw [← Option.some_inj.mp hBpts]
      exact hfind
    unfold transformData at hrow
    by_cases hempty : auds.isEmpty = true
    · rw [if_pos hempty] at hrow
      cases hrow
    · rw [if_neg hempty] at hrow
      by_cases hs : (List.insertionSort keyLe (collectMonthKeys auds)).isEmpty = true
      · rw [if_pos hs] at hrow
        cases hrow
      · rw [if_neg hs] at hrow
        rcases List.mem_map.mp hrow with ⟨k, _, hkrow⟩
        have hk : k = monthStr := by
          rw [← hmonth, ← hkrow]
        rw [← hkrow]
        show alookup aid (trendSlots auds sel (monthOfKey k)) = some (JsVal.num 0)
        rw [hk]
        unfold trendSlots
        rcases List.append_of_mem hAmem with ⟨pre, post, hsplit⟩
        rw [hsplit, List.foldl_append, List.foldl_cons]
        have hAstep : alookup aid
            (trendSlotStep sel (monthOfKey monthStr)
              (pre.foldl (trendSlotStep sel (monthOfKey monthStr)) []) A) =
            some (JsVal.num 0) :=
          alookup_trendSlotStep_zero _ A hid hpts hfind
        rcases alookup_foldl_trend_zero post
            (trendSlotStep sel (monthOfKey monthStr)
              (pre.foldl (trendSlotStep sel (monthOfKey monthStr)) []) A)
            (fun B hB => hz B (by
              rw [hsplit]
              exact List.mem_append.mpr (Or.inr (List.mem_cons_of_mem A hB)))) with h | h
        · exact h
        · exact h.trans hAstep

/-- C2 witness: the amended statement applied to a concrete two-channel
input — channel `A` has no month-1 record, channel `B` does, and `A`'s slot
in the month-1 row is `null`. -/
theorem C2_witness :
    ∃ rows row, transformedChartData
        [{ channel_id := some (r"A"), monthly_metrics := [{ month := some 3, roi := some 1 }] },
         { channel_id := some (r"B"), monthly_metrics := [{ month := some 1, roi := some 2 }] }]
        (r"roi") 2024 = some rows ∧ row ∈ rows ∧
      row.month = mkDateKey 2024 1 ∧
      alookup (idKey (some (r"A"))) row.slots = some JsVal.null :=
  C2_missing_slot.1 _ (r"roi") 2024
    { channel_id := some (r"A"), monthly_metrics := [{ month := some 3, roi := some 1 }] }
    { channel_id := some (r"B"), monthly_metrics := [{ month := some 1, roi := some 2 }] }
    1 { month := some 1, roi := some 2 }
    (by
      intro c hc rec hrec
      fin_cases hc <;> fin_cases hrec
      · exact ⟨3, rfl, by norm_num, by norm_num⟩
      · exact ⟨1, rfl, by norm_num, by norm_num⟩)
    (by decide)
    (by simp) (by simp) (by simp) rfl
    (by
      intro recA hrecA
      fin_cases hrecA
      decide)

/-! ## Claim C10 -/

theorem getLast?_eq_of_all {α : Type} {l : List α} {v : α} (hne : l ≠ [])
    (hall : ∀ x ∈ l, x = v) : l.getLast? = some v := by
  induction l with
  | nil => exact absurd rfl hne
  | cons a l ih =>
    cases l with
    | nil =>
      rw [hall a (List.mem_cons_self a [])]
      rfl
    | cons b l2 =>
      rw [List.getLast?_cons_cons]
      exact ih (by simp) fun x hx => hall x (List.mem_cons_of_mem a hx)

theorem lastWriteSteps_channels_unique {channels : List Channel} {c : Channel}
    {rec : MonthlyMetric} {m : Nat}
    (hids : (channels.map fun x => idKey x.channel_id).Nodup)
    (hc : c ∈ channels) (hrec : rec ∈ c.monthly_metrics) (hm : rec.month = some m)
    (huniq : ∀ rec2 ∈ c.monthly_metrics, rec2.month = some m → rec2 = rec) :
    lastWriteSteps (stepsOf (entsOfChannels channels)) (idKey c.channel_id) m = some rec := by
  unfold lastWriteSteps
  have hmem : (idKey c.channel_id, rec) ∈ (stepsOf (entsOfChannels channels)).filter
      (fun t => decide (t.1 = idKey c.channel_id) && decide (t.2.month = some m)) := by
    rw [List.mem_filter]
    refine ⟨mem_stepsOf.mpr ⟨(c.channel_id, c.monthly_metrics),
      List.mem_map.mpr ⟨c, hc, rfl⟩, rfl, hrec⟩, ?_⟩
    simp [hm]
  have hall : ∀ x ∈ (stepsOf (entsOfChannels channels)).filter
      (fun t => decide (t.1 = idKey c.channel_id) && decide (t.2.month = some m)),
      x = (idKey c.channel_id, rec) := by
    intro x hx
    rw [List.mem_filter] at hx
    obtain ⟨hxmem, hxp⟩ := hx
    simp only [Bool.and_eq_true, decide_eq_true_eq] at hxp
    obtain ⟨hx1, hx2⟩ := hxp
    rcases mem_stepsOf.mp hxmem with ⟨e, he, hid, hrec2⟩
    rcases List.mem_map.mp he with ⟨c2, hc2, hce⟩
    have hkey : idKey c2.channel_id = idKey c.channel_id := by
      rw [← hx1, hid, ← hce]
    have hc2c : c2 = c := List.inj_on_of_nodup_map hids hc2 hc hkey
    rw [← hce] at hrec2
    rw [hc2c] at hrec2
    have hxrec : x.2 = rec := huniq x.2 hrec2 hx2
    obtain ⟨x1, x2⟩ := x
    simp only at hx1 hxrec
    rw [hx1, hxrec]
  rw [getLast?_eq_of_all (fun hemp => by rw [hemp] at hmem; cases hmem) hall]
  rfl

/-- C10: a record that is present for an entity and month but lacks the
field named by the selected metric yields the JavaScript `undefined` in
that slot — it overwrites the `null` initialization, so a
present-but-fieldless record is distinguishable from an absent record. -/
theorem C10_undef (channels : List Channel) (sel : String) (year : Nat)
    (c : Channel) (rec : MonthlyMetric) (m : Nat)
    (hwf : ∀ c2 ∈ channels, ∀ rec2 ∈ c2.monthly_metrics,
      ∃ m2, rec2.month = some m2 ∧ 1 ≤ m2 ∧ m2 ≤ 12)
    (hids : (channels.map fun x => idKey x.channel_id).Nodup)
    (hc : c ∈ channels) (hrec : rec ∈ c.monthly_metrics) (hm : rec.month = some m)
    (huniq : ∀ rec2 ∈ c.monthly_metrics, rec2.month = some m → rec2 = rec)
    (hfield : (sel = r"roi" ∧ rec.roi = none) ∨
      (sel = r"conversion" ∧ rec.conversion_rate = none) ∨
      (sel = r"spend" ∧ rec.total_spend = none)) :
    ∃ rows row, transformedChartData channels sel year = some rows ∧ row ∈ rows ∧
      row.month = mkDateKey year m ∧
      alookup (idKey c.channel_id) row.slots = some JsVal.undef ∧
      JsVal.undef ≠ JsVal.null := by
  have hmem_month : m ∈ (stepsOf (entsOfChannels channels)).map monthOf :=
    List.mem_map.mpr ⟨(idKey c.channel_id, rec),
      mem_stepsOf.mpr ⟨(c.channel_id, c.monthly_metrics),
        List.mem_map.mpr ⟨c, hc, rfl⟩, rfl, hrec⟩,
      by simp [monthOf, hm]⟩
  obtain ⟨row, hrowmem, hrowmonth, hslot⟩ :=
    specRows_slot (resolveChannelMetric sel) (entsOfChannels channels) year
      (e := (c.channel_id, c.monthly_metrics)) hmem_month (List.mem_map.mpr ⟨c, hc, rfl⟩)
  refine ⟨_, row, transformedChartData_spec channels sel year hwf, hrowmem, hrowmonth, ?_,
    fun h => JsVal.noConfusion h⟩
  rw [lastWriteSteps_channels_unique hids hc hrec hm huniq] at hslot
  have hres : resolveChannelMetric sel rec = JsVal.undef := by
    rcases hfield with ⟨hsel, hf⟩ | ⟨hsel, hf⟩ | ⟨hsel, hf⟩ <;>
      rw [hsel] <;> simp [resolveChannelMetric, hf, toVal]
  rw [← hres]
  exact hslot

/-- C10 witness: a month-1 record with no `roi` field produces an
`undefined` slot for `selectedMetric = roi`. -/
theorem C10_witness :
    ∃ rows row, transformedChartData
        [{ channel_id := some (r"A"), monthly_metrics := [{ month := some 1 }] }]
        (r"roi") 2024 = some rows ∧ row ∈ rows ∧
      row.month = mkDateKey 2024 1 ∧
      alookup (idKey (some (r"A"))) row.slots = some JsVal.undef ∧
      JsVal.undef ≠ JsVal.null :=
  C10_undef _ (r"roi") 2024
    { channel_id := some (r"A"), monthly_metrics := [{ month := some 1 }] }
    { month := some 1 } 1
    (by
      intro c hc rec hrec
      fin_cases hc
      fin_cases hrec
      exact ⟨1, rfl, by norm_num, by norm_num⟩)
    (by decide)
    (by simp) (by simp) rfl
    (by
      intro rec2 hrec2 hm2
      fin_cases hrec2
      rfl)
    (Or.inl ⟨rfl, rfl⟩)

/-! ## Claim C3 -/

theorem mem_foldl_collectPointStep (pts : List TrendPoint) (acc : List String) (s : String)
    (hs : s ∈ pts.foldl collectPointStep acc) :
    s ∈ acc ∨ ∃ p ∈ pts, ∃ m, p.month = some m ∧ m ≠ 0 ∧ s = trendKey m := by
  induction pts generalizing acc with
  | nil => exact Or.inl hs
  | cons p rest ih =>
    rw [List.foldl_cons] at hs
    rcases ih (collectPointStep acc p) hs with h | h
    · unfold collectPointStep at h
      cases hm : p.month with
      | none =>
        rw [hm] at h
        exact Or.inl h
      | some m =>
        rw [hm] at h
        have h2 : s ∈ (if m = 0 then acc else pushKey acc (trendKey m)) := h
        by_cases hz : m = 0
        · rw [if_pos hz] at h2
          exact Or.inl h2
        · rw [if_neg hz] at h2
          rcases mem_pushKey.mp h2 with h3 | h3
          · exact Or.inl h3
          · exact Or.inr ⟨p, List.mem_cons_self p rest, m, hm, hz, h3⟩
    · rcases h with ⟨p2, hp2, m, hm, hz, hs2⟩
      exact Or.inr ⟨p2, List.mem_cons_of_mem p hp2, m, hm, hz, hs2⟩

theorem mem_foldl_collectStep (auds : List TrendAudience) (acc : List String) (s : String)
    (hs : s ∈ auds.foldl collectStep acc) :
    s ∈ acc ∨ ∃ a ∈ auds, ∃ pts, a.monthly_metrics = some pts ∧
      ∃ p ∈ pts, ∃ m, p.month = some m ∧ m ≠ 0 ∧ s = trendKey m := by
  induction auds generalizing acc with
  | nil => exact Or.inl hs
  | cons a rest ih =>
    rw [List.foldl_cons] at hs
    rcases ih (collectStep acc a) hs with h | h
    · unfold collectStep at h
      cases hmm : a.monthly_metrics with
      | none =>
        rw [hmm] at h
        exact Or.inl h
      | some pts =>
        rw [hmm] at h
        rcases mem_foldl_collectPointStep pts acc s h with h2 | h2
        · exact Or.inl h2
        · rcases h2 with ⟨p, hp, m, hm, hz, hs2⟩
          exact Or.inr ⟨a, List.mem_cons_self a rest, pts, hmm, p, hp, m, hm, hz, hs2⟩
    · rcases h with ⟨a2, ha2, pts, hpts, p, hp, m, hm, hz, hs2⟩
      exact Or.inr ⟨a2, List.mem_cons_of_mem a ha2, pts, hpts, p, hp, m, hm, hz, hs2⟩

/-- C3 counterexample: `AudienceTrendChart.transformData` synthesizes the
key `2024-03` for month 3 — a hardcoded year and no `-01` day component —
not `referenceYear-03-01` as claimed. -/
theorem C3_counterexample :
    (transformData
        [{ audience_id := some (r"A"),
           monthly_metrics := some [{ month := some 3, fields := [(r"roi", 2)] }] }]
        (r"roi")).map (fun row => row.month) = [r"2024-03"] ∧
    (r"2024-03" : String) ≠ r"2024-03-01" :=
  ⟨rfl, by decide⟩

/-- C3 (amended): the grouped transformations synthesize the key
`year-MM-01` from the ambient current year (passed here as the `year`
argument) and the record's zero-padded month, and every produced row key
arises that way from some input record (and conversely).
`AudienceTrendChart.transformData` instead synthesizes `2024-MM` — the
year is hardcoded and no `-01` day component is appended. -/
theorem C3_keys :
    (∀ (channels : List Channel) (sel : String) (year : Nat),
      (∀ c ∈ channels, ∀ rec ∈ c.monthly_metrics,
        ∃ m, rec.month = some m ∧ 1 ≤ m ∧ m ≤ 12) →
      ∃ rows, transformedChartData channels sel year = some rows ∧
        (∀ row ∈ rows, ∃ c ∈ channels, ∃ rec ∈ c.monthly_metrics, ∃ m,
          rec.month = some m ∧ row.month = mkDateKey year m) ∧
        (∀ c ∈ channels, ∀ rec ∈ c.monthly_metrics, ∀ m, rec.month = some m →
          ∃ row ∈ rows, row.month = mkDateKey year m)) ∧
    (∀ (auds : List TrendAudience) (sel : String),
      ∀ row ∈ transformData auds sel, ∃ a ∈ auds, ∃ pts,
        a.monthly_metrics = some pts ∧
        ∃ p ∈ pts, ∃ m, p.month = some m ∧ m ≠ 0 ∧ row.month = trendKey m) := by
  constructor
  · intro channels sel year hwf
    refine ⟨_, transformedChartData_spec channels sel year hwf, ?_, ?_⟩
    · intro row hrow
      unfold specRows at hrow
      rcases List.mem_map.mp hrow with ⟨m, hm, hrowm⟩
      have hmm : m ∈ (stepsOf (entsOfChannels channels)).map monthOf :=
        mem_firstDedup.mp ((List.mem_insertionSort monthLe).mp hm)
      rcases List.mem_map.mp hmm with ⟨t, ht, hmt⟩
      rcases mem_stepsOf.mp ht with ⟨e, he, _, hrec⟩
      rcases List.mem_map.mp he with ⟨c, hc, hce⟩
      rcases hwf c hc t.2 (by rw [← hce] at hrec; exact hrec) with ⟨mt, hmt2, _, _⟩
      refine ⟨c, hc, t.2, (by rw [← hce] at hrec; exact hrec), mt, hmt2, ?_⟩
      rw [← hrowm]
      show mkDateKey year m = mkDateKey year mt
      have : monthOf t = mt := by simp [monthOf, hmt2]
      rw [← hmt, this]
    · intro c hc rec hrec m hm
      have hmem_month : m ∈ (stepsOf (entsOfChannels channels)).map monthOf :=
        List.mem_map.mpr ⟨(idKey c.channel_id, rec),
          mem_stepsOf.mpr ⟨(c.channel_id, c.monthly_metrics),
            List.mem_map.mpr ⟨c, hc, rfl⟩, rfl, hrec⟩,
          by simp [monthOf, hm]⟩
      obtain ⟨row, hrowmem, hrowmonth, _⟩ :=
        specRows_slot (resolveChannelMetric sel) (entsOfChannels channels) year
          (e := (c.channel_id, c.monthly_metrics)) hmem_month
          (List.mem_map.mpr ⟨c, hc, rfl⟩)
      exact ⟨row, hrowmem, hrowmonth⟩
  · intro auds sel row hrow
    unfold transformData at hrow
    by_cases hempty : auds.isEmpty = true
    · rw [if_pos hempty] at hrow
      cases hrow
    · rw [if_neg hempty] at hrow
      by_cases hs : (List.insertionSort keyLe (collectMonthKeys auds)).isEmpty = true
      · rw [if_pos hs] at hrow
        cases hrow
      · rw [if_neg hs] at hrow
        rcases List.mem_map.mp hrow with ⟨k, hk, hkrow⟩
        have hk2 : k ∈ collectMonthKeys auds := (List.mem_insertionSort keyLe).mp hk
        rcases mem_foldl_collectStep auds [] k hk2 with h | h
        · cases h
        · rcases h with ⟨a, ha, pts, hpts, p, hp, m, hm, hz, hkm⟩
          exact ⟨a, ha, pts, hpts, p, hp, m, hm, hz, by rw [← hkrow, hkm]⟩

/-- C3 witness: the grouped key for month 3 and year 2024 is exactly
`2024-03-01`. -/
theorem C3_witness :
    ∃ rows, transformedChartData
        [{ channel_id := some (r"A"), monthly_metrics := [{ month := some 3, roi := some 1 }] }]
        (r"roi") 2024 = some rows ∧
      (∀ row ∈ rows, ∃ c ∈
          [({ channel_id := some (r"A"),
              monthly_metrics := [{ month := some 3, roi := some 1 }] } : Channel)],
        ∃ rec ∈ c.monthly_metrics, ∃ m,
          rec.month = some m ∧ row.month = mkDateKey 2024 m) ∧
      (∀ c ∈
          [({ channel_id := some (r"A"),
              monthly_metrics := [{ month := some 3, roi := some 1 }] } : Channel)],
        ∀ rec ∈ c.monthly_metrics, ∀ m, rec.month = some m →
          ∃ row ∈ rows, row.month = mkDateKey 2024 m) :=
  C3_keys.1 _ (r"roi") 2024 (by
    intro c hc rec hrec
    fin_cases hc
    fin_cases hrec
    exact ⟨3, rfl, by norm_num, by norm_num⟩)

/-! ## Claim C9 -/

/-- C9 counterexample: identical entities and selected metric, evaluated
with ambient years 2024 and 2025 (`new Date().getFullYear()`), produce
different tables — the date keys embed the current year. -/
theorem C9_counterexample :
    transformedChartData
        [{ channel_id := some (r"A"), monthly_metrics := [{ month := some 1, roi := some 2 }] }]
        (r"roi") 2024 ≠
      transformedChartData
        [{ channel_id := some (r"A"), monthly_metrics := [{ month := some 1, roi := some 2 }] }]
        (r"roi") 2025 := by
  have h1 : transformedChartData
      [{ channel_id := some (r"A"), monthly_metrics := [{ month := some 1, roi := some 2 }] }]
      (r"roi") 2024 = some [⟨r"2024-01-01", [(r"A", JsVal.num 2)]⟩] := rfl
  have h2 : transformedChartData
      [{ channel_id := some (r"A"), monthly_metrics := [{ month := some 1, roi := some 2 }] }]
      (r"roi") 2025 = some [⟨r"2025-01-01", [(r"A", JsVal.num 2)]⟩] := rfl
  intro hEq
  rw [h1, h2] at hEq
  simp only [Option.some_inj, List.cons.injEq, ChartRow.mk.injEq] at hEq
  exact absurd hEq.1.1 (by decide)

/-- C9 (amended): the transformation is a pure function of the entities,
the selected metric and the ambient current year; for a fixed pair of
entities and metric, tables produced under different current years agree
in row count, underlying month sequence and every slot list — only the
year embedded in the date-key strings differs. -/
theorem C9_year_dependence (channels : List Channel) (sel : String) (y1 y2 : Nat)
    (hwf : ∀ c ∈ channels, ∀ rec ∈ c.monthly_metrics,
      ∃ m, rec.month = some m ∧ 1 ≤ m ∧ m ≤ 12) :
    ∃ (rows1 rows2 : List ChartRow) (ms : List Nat),
      transformedChartData channels sel y1 = some rows1 ∧
      transformedChartData channels sel y2 = some rows2 ∧
      (rows1.map fun row => row.slots) = (rows2.map fun row => row.slots) ∧
      (rows1.map fun row => row.month) = ms.map (mkDateKey y1) ∧
      (rows2.map fun row => row.month) = ms.map (mkDateKey y2) := by
  refine ⟨_, _,
    List.insertionSort monthLe (firstDedup ((stepsOf (entsOfChannels channels)).map monthOf)),
    transformedChartData_spec channels sel y1 hwf,
    transformedChartData_spec channels sel y2 hwf, ?_,
    specRows_month_map _ _ _, specRows_month_map _ _ _⟩
  unfold specRows
  rw [List.map_map, List.map_map]
  rfl

/-- C9 witness: the year-invariance-up-to-keys statement applied to a
concrete one-channel input and the years 2024 and 2025. -/
theorem C9_witness :
    ∃ (rows1 rows2 : List ChartRow) (ms : List Nat),
      transformedChartData
        [{ channel_id := some (r"A"), monthly_metrics := [{ month := some 1, roi := some 2 }] }]
        (r"roi") 2024 = some rows1 ∧
      transformedChartData
        [{ channel_id := some (r"A"), monthly_metrics := [{ month := some 1, roi := some 2 }] }]
        (r"roi") 2025 = some rows2 ∧
      (rows1.map fun row => row.slots) = (rows2.map fun row => row.slots) ∧
      (rows1.map fun row => row.month) = ms.map (mkDateKey 2024) ∧
      (rows2.map fun row => row.month) = ms.map (mkDateKey 2025) :=
  C9_year_dependence _ (r"roi") 2024 2025 (by
    intro c hc rec hrec
    fin_cases hc
    fin_cases hrec
    exact ⟨1, rfl, by norm_num, by norm_num⟩)
